import Mathlib

/-!
Verification of `similaritySearch.go`: histogram intersection and the online
top-5 ranking.

* A Go `int` is modelled as an `Int` kept inside the 64-bit two's-complement
  range: the updates `distance += ...` and `histogram[i]++` of the source are
  followed by `wrapInt`. Loop counters range over list positions and never wrap.
* A Go slice `[]int` is a `List Int`; `[]Histo` is a `List Histo`.
* The file system and the JPEG decoder are a parameter `decode` mapping a path
  to a decoded pixel grid or to an error.
* The records received from `histogramChannel` are the elements of a list, in
  arrival order.
* A goroutine is modelled by the trace of what it does in program order
  (`Event`); the order in which the unbuffered channel hands the records of the
  sending goroutines to the Collector is fixed by a list of scheduler picks
  (`deliver`), so that a statement about every schedule quantifies over that
  list.
* `main` takes the argument vector and a `World` (directory listing, path join,
  decoder) and yields an `Outcome`: directories read, goroutine traces, lines
  printed by `main`, and how the run ends.
-/

namespace SimilaritySearch

/-! ## Machine integers -/

/-- Largest value of a 64-bit Go `int`. -/
def maxInt : Int := 9223372036854775807

/-- Smallest value of a 64-bit Go `int`. -/
def minInt : Int := -9223372036854775808

/-- Two's-complement reduction of an integer to the range of a 64-bit Go `int`. -/
def wrapInt (z : Int) : Int :=
  (z + 9223372036854775808) % 18446744073709551616 - 9223372036854775808

/-! ## Data model -/

/-- The record `type Histo struct { Name string; H []int }`. -/
structure Histo where
  Name : String
  H : List Int
  deriving DecidableEq, Repr

/-! ## Intersection distance (source lines 105-127) -/

/-- The source function `min`: `if a < b { return a }; return b`. -/
def min (a b : Int) : Int :=
  if a < b then a else b

/-- The source function `calculateIntersectionDistance`: the sentinel `-1` on a
length mismatch, otherwise the loop `for i := range hist1` accumulating
`distance += min(hist1[i], hist2[i])` in a Go `int`. -/
def calculateIntersectionDistance (hist1 hist2 : List Int) : Int :=
  if hist1.length ≠ hist2.length then -1
  else
    (List.range hist1.length).foldl
      (fun distance i => wrapInt (distance + min (hist1.getD i 0) (hist2.getD i 0))) 0

/-- The exact (unbounded) sum of the pairwise minima of two vectors, the
quantity `Σ min(a[i], b[i])` of the specification. -/
def sumOfMinima (a b : List Int) : Int :=
  (List.zipWith (fun x y => Min.min x y) a b).sum

/-! ## Histogram builder (source lines 20-92) -/

/-- The four `uint32` results of `color.RGBA()` for one pixel. -/
structure RGBA where
  red : Nat
  green : Nat
  blue : Nat
  alpha : Nat
  deriving DecidableEq, Repr

/-- A decoded image as `computeHistogram` reads it: `img.Bounds().Max.X`,
`img.Bounds().Max.Y`, and `img.At(x, y).RGBA()` for the loop indices. -/
structure Image where
  maxX : Int
  maxY : Int
  At : Nat → Nat → RGBA

/-- The two ways a call can fail: it returns a non-nil Go `error`, or the Go
run time stops the program (index out of range, negative `make` length). -/
inductive Fault where
  | error (msg : String)
  | crash
  deriving DecidableEq, Repr

/-- The statement `histogram[index]++` on a slice of Go `int`: a run-time
failure when `index` is outside the slice. -/
def incrementBin (histogram : List Int) (index : Nat) : Except Fault (List Int) :=
  if index < histogram.length then
    .ok (histogram.set index (wrapInt (histogram.getD index 0 + 1)))
  else .error .crash

/-- The body of the inner loop (source lines 42-66) for the colour `c` of one
pixel: each of red, green, blue is shifted right by 8 and its bin incremented;
alpha is discarded. -/
def countPixel (histogram : List Int) (c : RGBA) : Except Fault (List Int) := do
  let redIndex := c.red >>> 8
  let greenIndex := c.green >>> 8
  let blueIndex := c.blue >>> 8
  let histogram ← incrementBin histogram redIndex
  let histogram ← incrementBin histogram greenIndex
  incrementBin histogram blueIndex

/-- The inner loop `for x := 0; x < width; x++` on row `y`. -/
def scanRow (img : Image) (y : Nat) (histogram : List Int) : Except Fault (List Int) :=
  (List.range img.maxX.toNat).foldlM
    (fun histogram x => countPixel histogram (img.At x y)) histogram

/-- The outer loop `for y := 0; y < height; y++`. -/
def scanImage (img : Image) (histogram : List Int) : Except Fault (List Int) :=
  (List.range img.maxY.toNat).foldlM
    (fun histogram y => scanRow img y histogram) histogram

/-- The source function `computeHistogram`. `decode` stands for `os.Open`
followed by `image.Decode`; when it fails the source returns
`Histo{"", nil}` together with the error, which is the `Fault.error` result
here. `make([]int, depth+1)` stops the program on a negative length. -/
def computeHistogram (decode : String → Except String Image)
    (imagePath : String) (depth : Int) : Except Fault Histo :=
  match decode imagePath with
  | .error e => .error (.error e)
  | .ok img =>
    if wrapInt (depth + 1) < 0 then .error .crash
    else
      match scanImage img (List.replicate (wrapInt (depth + 1)).toNat 0) with
      | .error f => .error f
      | .ok histogram => .ok ⟨imagePath, histogram⟩

/-- Number of the three colour samples of `c` (red, green, blue; not alpha)
whose value shifted right by 8 bits equals `i`. -/
def channelHits (c : RGBA) (i : Nat) : Nat :=
  (if c.red >>> 8 = i then 1 else 0) + (if c.green >>> 8 = i then 1 else 0)
    + (if c.blue >>> 8 = i then 1 else 0)

/-- Number of (pixel, channel) pairs of the `w × h` grid `grid`, over the red,
green and blue channels, whose value shifted right by 8 bits equals `i`. -/
def sampleCount (grid : Nat → Nat → RGBA) (w h : Nat) (i : Nat) : Nat :=
  ((List.range h).map
    (fun y => ((List.range w).map (fun x => channelHits (grid x y) i)).sum)).sum

/-- Loop invariant of the pixel scan: the histogram has `n` bins, bin `i` holds
the count `f i`, and the bins add up to `m`. -/
def Tallies (n : Nat) (histogram : List Int) (f : Nat → Nat) (m : Nat) : Prop :=
  histogram.length = n ∧ (∀ i, i < n → histogram.getD i 0 = (f i : Int))
    ∧ histogram.sum = (m : Int)

/-! ## Collector loop of `main` (source lines 187-211) -/

/-- The inner loop of source lines 200-205: starting from `minDistanceIdx := 0`,
for `j = 1, 2, 3, 4` the index becomes `j` whenever the distance of the
INCOMING record is below the distance of `similarImages[minDistanceIdx]`.
The branch runs with `len(similarImages) >= 5`, so every index is in range. -/
def findMinDistanceIdx (queryHistogram : Histo) (similarImages : List Histo)
    (histogram : Histo) : Nat :=
  [1, 2, 3, 4].foldl
    (fun minDistanceIdx j =>
      if calculateIntersectionDistance queryHistogram.H histogram.H
          < calculateIntersectionDistance queryHistogram.H
              (similarImages.getD minDistanceIdx ⟨"", []⟩).H
      then j else minDistanceIdx) 0

/-- One iteration of the loop of source lines 189-211 for the received record
`histogram`. -/
def collectorStep (queryHistogram : Histo) (similarImages : List Histo)
    (histogram : Histo) : List Histo :=
  let distance := calculateIntersectionDistance queryHistogram.H histogram.H
  if similarImages.length < 5 then
    similarImages ++ [histogram]
  else
    let minDistanceIdx := findMinDistanceIdx queryHistogram similarImages histogram
    if distance > calculateIntersectionDistance queryHistogram.H
        (similarImages.getD minDistanceIdx ⟨"", []⟩).H then
      similarImages.set minDistanceIdx histogram
    else
      similarImages

/-- The Collector loop: `similarImages` starts empty and the candidate records
are processed in arrival order; `queryHistogram` is the first record received
from the channel. -/
def collectorLoop (queryHistogram : Histo) (candidates : List Histo) : List Histo :=
  candidates.foldl (collectorStep queryHistogram) []

/-- The intersection distance of one record to the query, as the Collector
computes it. -/
def distanceTo (queryHistogram : Histo) (r : Histo) : Int :=
  calculateIntersectionDistance queryHistogram.H r.H

/-- The intersection distances of a list of records to the query. -/
def distancesTo (queryHistogram : Histo) (records : List Histo) : List Int :=
  records.map (fun r => calculateIntersectionDistance queryHistogram.H r.H)

/-- The 5 largest values of a list (all of them when there are fewer than 5),
in decreasing order. -/
def fiveLargest (ds : List Int) : List Int :=
  (List.insertionSort (fun x y => x ≥ y) ds).take 5

/-! ## Worker and query goroutines (source lines 94-103 and 175-185) -/

/-- A line written to standard output: the texts of source lines 131, 98, 178,
180, 218 and 220. -/
inductive Line where
  | usage
  | histogramError (imagePath : String) (err : String)
  | queryHistogram (bins : List Int)
  | queryError (err : String)
  | header
  | rank (position : Nat) (name : String)
  deriving DecidableEq, Repr

/-- What one goroutine does, in program order: it opens a file (inside
`computeHistogram`), completes a send on `histogramChannel`, prints a line, or
stops the program by a run-time crash. -/
inductive Event where
  | opened (path : String)
  | send (histogram : Histo)
  | print (line : Line)
  | crash
  deriving DecidableEq, Repr

/-- The source function `computeHistograms`: for each path of the batch, in
order, a failure of `computeHistogram` prints the diagnostic and `continue`s, a
success sends the record on the channel. -/
def computeHistograms (decode : String → Except String Image) :
    List String → Int → List Event
  | [], _ => []
  | imagePath :: rest, depth =>
    match computeHistogram decode imagePath depth with
    | .error (.error err) =>
      .opened imagePath :: .print (.histogramError imagePath err)
        :: computeHistograms decode rest depth
    | .error .crash => [.opened imagePath, .crash]
    | .ok histogram =>
      .opened imagePath :: .send histogram :: computeHistograms decode rest depth

/-- The anonymous goroutine of source lines 176-185: it computes the query
histogram, prints it (an empty slice on failure), and then either prints the
error and returns, or sends the record. -/
def queryTask (decode : String → Except String Image) (queryImageFilename : String)
    (depth : Int) : List Event :=
  match computeHistogram decode queryImageFilename depth with
  | .error (.error err) =>
    [.opened queryImageFilename, .print (.queryHistogram []), .print (.queryError err)]
  | .error .crash => [.opened queryImageFilename, .crash]
  | .ok queryHistogram =>
    [.opened queryImageFilename, .print (.queryHistogram queryHistogram.H),
      .send queryHistogram]

/-- The records a goroutine sends, in order. -/
def sendsOf (events : List Event) : List Histo :=
  events.filterMap (fun e => match e with
    | .send histogram => some histogram
    | _ => none)

/-- The lines a goroutine prints, in order. -/
def printsOf (events : List Event) : List Line :=
  events.filterMap (fun e => match e with
    | .print line => some line
    | _ => none)

/-- The paths a goroutine opens, in order. -/
def opensOf (events : List Event) : List String :=
  events.filterMap (fun e => match e with
    | .opened path => some path
    | _ => none)

/-- Whether a goroutine ends in a run-time crash. -/
def crashes (events : List Event) : Bool :=
  events.any (fun e => match e with
    | .crash => true
    | _ => false)

/-! ## Partitioning loop of `main` (source lines 160-173) -/

/-- The value `batchSize := (len(jpgFiles) + numThreads - 1) / numThreads` with
`numThreads := 5`. A slice of strings has fewer than `2^60` elements, so this
sum cannot wrap. -/
def batchSizeOf (jpgFiles : List String) : Nat :=
  (jpgFiles.length + 5 - 1) / 5

/-- The loop `for i := 0; i < len(jpgFiles); i += batchSize`, started at index
`i` and run for at most `fuel` tests of its condition: the list of index pairs
`(i, end)` of the slices `jpgFiles[i:end]` handed to the goroutines, in launch
order; `none` when the loop has not ended within `fuel` tests. -/
def partitionLoop (len batchSize : Nat) : Nat → Nat → Option (List (Nat × Nat))
  | 0, _ => none
  | fuel + 1, i =>
    if i < len then
      let endIdx := if i + batchSize > len then len else i + batchSize
      match partitionLoop len batchSize fuel (i + batchSize) with
      | none => none
      | some later => some ((i, endIdx) :: later)
    else some []

/-- The slice expression `jpgFiles[i:end]` for the index pair `r = (i, end)`. -/
def sliceOf (jpgFiles : List String) (r : Nat × Nat) : List String :=
  (jpgFiles.drop r.1).take (r.2 - r.1)

/-! ## The program `main` (source lines 129-223) -/

/-- The test `strings.HasSuffix(s, suffix)`. -/
def hasSuffix (s suffix : String) : Bool :=
  suffix.toList.isSuffixOf s.toList

/-- What the operating system offers to `main`: `ioutil.ReadDir` (the entry
names of a directory, or an error), `filepath.Join`, and the decoder behind
`computeHistogram`. -/
structure World where
  readDir : String → Except String (List String)
  joinPath : String → String → String
  decode : String → Except String Image

/-- How a run of `main` ends: the process exits with a status; or the
partitioning loop is still running; or `main` waits on a receive from
`histogramChannel` that no goroutine will ever serve (the Go run time then
aborts with "all goroutines are asleep - deadlock!"); or a goroutine stops the
program by a run-time crash. -/
inductive Termination where
  | exited (status : Nat)
  | running
  | blocked
  | crashed
  deriving DecidableEq, Repr

/-- What a run of `main` does: the directories it lists, the traces of the
goroutines it launches (workers in launch order, then the query goroutine), the
lines printed by `main` itself, and how it ends. -/
structure Outcome where
  dirsRead : List String
  tasks : List (List Event)
  mainOutput : List Line
  termination : Termination
  deriving DecidableEq, Repr

/-- The order in which an unbuffered channel hands over the records of several
sending goroutines: at each receive the scheduler picks one of the senders that
still has a record to send (`choices` holds its picks), and that sender's next
record is delivered. At most `fuel` records are delivered. -/
def deliver : Nat → List (List Histo) → List Nat → List Histo
  | 0, _, _ => []
  | fuel + 1, senders, choices =>
    let ready := senders.filter (fun s => !s.isEmpty)
    match ready.getD (choices.headD 0 % ready.length) [] with
    | [] => []
    | histogram :: rest =>
      histogram :: deliver fuel (ready.set (choices.headD 0 % ready.length) rest) choices.tail

/-- The Collector of source lines 187-211 on the records `arrivals` that the
channel ever delivers, with `n = len(jpgFiles)`: the first record received is
taken as `queryHistogram`, then `n` more receives feed the loop; `none` when one
of these `n + 1` receives never gets a record. -/
def collector (arrivals : List Histo) (n : Nat) : Option (List Histo) :=
  match arrivals with
  | [] => none
  | queryHistogram :: rest =>
    if rest.length < n then none
    else some (collectorLoop queryHistogram (rest.take n))

/-- The lines `fmt.Printf("%d: %s\n", i+1, hist.Name)` of source lines 219-221. -/
def rankLines (similarImages : List Histo) : List Line :=
  List.zipWith (fun i hist => Line.rank (i + 1) hist.Name)
    (List.range similarImages.length) similarImages

/-- The list `jpgFiles` built by source lines 150-155 from the directory
entries `files`: the names ending in `.jpg`, each joined with the directory. -/
def listJpgFiles (world : World) (imageDatasetDirectory : String) (files : List String) :
    List String :=
  (files.filter (fun name => hasSuffix name ".jpg")).map
    (world.joinPath imageDatasetDirectory)

/-- The goroutines launched by source lines 163-185: one `computeHistograms` per
index pair of the partitioning loop, then the query goroutine. Each trace is that
of a goroutine running to its end. -/
def launchTasks (decode : String → Except String Image) (jpgFiles : List String)
    (ranges : List (Nat × Nat)) (queryImageFilename : String) (depth : Int) :
    List (List Event) :=
  ranges.map (fun r => computeHistograms decode (sliceOf jpgFiles r) depth)
    ++ [queryTask decode queryImageFilename depth]

/-- Source lines 187-222 once the goroutines `tasks` are launched, with
`n = len(jpgFiles)`: the Collector receives `n + 1` records in the order the
channel delivers them, then `main` prints the header and the ranked names and
returns. A crash in a goroutine stops the program; a receive that never gets a
record leaves `main` blocked. -/
def collectAndPrint (imageDatasetDirectory : String) (tasks : List (List Event)) (n : Nat)
    (choices : List Nat) : Outcome :=
  if tasks.any crashes then
    ⟨[imageDatasetDirectory], tasks, [], .crashed⟩
  else
    let senders := tasks.map sendsOf
    let arrivals := deliver (senders.map List.length).sum senders choices
    match collector arrivals n with
    | none => ⟨[imageDatasetDirectory], tasks, [], .blocked⟩
    | some similarImages =>
      ⟨[imageDatasetDirectory], tasks, .header :: rankLines similarImages, .exited 0⟩

/-- The source function `main` on the argument vector `args = os.Args` (program
name first). A return from `main` is exit status 0; `log.Fatal` is exit status
1. -/
def main (world : World) (args : List String) (choices : List Nat) : Outcome :=
  if args.length ≠ 3 then
    ⟨[], [], [.usage], .exited 0⟩
  else
    let queryImageFilename := args.getD 1 ""
    let imageDatasetDirectory := args.getD 2 ""
    let depth : Int := 255
    match world.readDir imageDatasetDirectory with
    | .error _ => ⟨[imageDatasetDirectory], [], [], .exited 1⟩
    | .ok files =>
      let jpgFiles := listJpgFiles world imageDatasetDirectory files
      match partitionLoop jpgFiles.length (batchSizeOf jpgFiles) (jpgFiles.length + 1) 0 with
      | none => ⟨[imageDatasetDirectory], [], [], .running⟩
      | some ranges =>
        collectAndPrint imageDatasetDirectory
          (launchTasks world.decode jpgFiles ranges queryImageFilename depth)
          jpgFiles.length choices

/-! ## Concrete inputs -/

/-- The colour of an opaque black pixel. -/
def blackPixel : RGBA := ⟨0, 0, 0, 65535⟩

/-- The colour of an opaque white pixel: every channel at `65535`. -/
def whitePixel : RGBA := ⟨65535, 65535, 65535, 65535⟩

/-- The 256-bin histogram of an all-black image of `n` pixels: all `3 · n`
colour samples fall in bin 0. -/
def blackBins (n : Nat) : List Int :=
  (3 * (n : Int)) :: List.replicate 255 0

/-- The record named `name` holding `blackBins n`. -/
def blackRecord (name : String) (n : Nat) : Histo :=
  ⟨name, blackBins n⟩

/-- A file system with seven all-black images: the query `q.jpg` (3 × 2) and
the candidates `data/a.jpg` (5 × 1), `data/b.jpg` (1 × 1), `data/c.jpg` (2 × 1),
`data/d.jpg` (3 × 1), `data/e.jpg` (2 × 2), `data/f.jpg` (3 × 2); any other path
fails to open. -/
def decodeBlack (path : String) : Except String Image :=
  if path = "q.jpg" then .ok ⟨3, 2, fun _ _ => blackPixel⟩
  else if path = "data/a.jpg" then .ok ⟨5, 1, fun _ _ => blackPixel⟩
  else if path = "data/b.jpg" then .ok ⟨1, 1, fun _ _ => blackPixel⟩
  else if path = "data/c.jpg" then .ok ⟨2, 1, fun _ _ => blackPixel⟩
  else if path = "data/d.jpg" then .ok ⟨3, 1, fun _ _ => blackPixel⟩
  else if path = "data/e.jpg" then .ok ⟨2, 2, fun _ _ => blackPixel⟩
  else if path = "data/f.jpg" then .ok ⟨3, 2, fun _ _ => blackPixel⟩
  else .error "open: no such file or directory"

/-- A machine whose directory `data` holds the six candidate images of
`decodeBlack` and one text file. -/
def blackWorld : World where
  readDir := fun dir =>
    if dir = "data" then .ok ["a.jpg", "b.jpg", "c.jpg", "d.jpg", "e.jpg", "f.jpg", "notes.txt"]
    else .error "open: no such file or directory"
  joinPath := fun dir name => dir ++ "/" ++ name
  decode := decodeBlack

/-- The goroutine traces of `main` on `blackWorld`: three workers with two
candidates each, then the query goroutine. -/
def blackTasks : List (List Event) :=
  [[.opened "data/a.jpg", .send (blackRecord "data/a.jpg" 5),
    .opened "data/b.jpg", .send (blackRecord "data/b.jpg" 1)],
   [.opened "data/c.jpg", .send (blackRecord "data/c.jpg" 2),
    .opened "data/d.jpg", .send (blackRecord "data/d.jpg" 3)],
   [.opened "data/e.jpg", .send (blackRecord "data/e.jpg" 4),
    .opened "data/f.jpg", .send (blackRecord "data/f.jpg" 6)],
   [.opened "q.jpg", .print (.queryHistogram (blackBins 6)),
    .send (blackRecord "q.jpg" 6)]]

/-- A machine whose directory `data` holds the all-black image `a.jpg` and a
file `bad.jpg` that is not a JPEG image; the query `q.jpg` is as in
`decodeBlack`. -/
def badWorld : World where
  readDir := fun dir =>
    if dir = "data" then .ok ["a.jpg", "bad.jpg"]
    else .error "open: no such file or directory"
  joinPath := fun dir name => dir ++ "/" ++ name
  decode := fun path =>
    if path = "data/bad.jpg" then .error "image: unknown format" else decodeBlack path

/-- A decoder under which every path holds the 2 × 2 all-white image. -/
def decodeWhite : String → Except String Image :=
  fun _ => .ok ⟨2, 2, fun _ _ => whitePixel⟩

/-- A decoder under which every path holds a zero-area image (width 0,
height 5). -/
def decodeEmpty : String → Except String Image :=
  fun _ => .ok ⟨0, 5, fun _ _ => whitePixel⟩

/-! ## Machine-integer lemmas -/

theorem wrapInt_of_inRange (z : Int) (hlo : minInt ≤ z) (hhi : z ≤ maxInt) : wrapInt z = z := by
  unfold wrapInt
  unfold minInt at hlo
  unfold maxInt at hhi
  rw [Int.emod_eq_of_lt (by omega) (by omega)]
  omega

theorem wrapInt_bounds (z : Int) : minInt ≤ wrapInt z ∧ wrapInt z ≤ maxInt := by
  unfold wrapInt minInt maxInt
  have h1 := Int.emod_nonneg (z + 9223372036854775808)
    (show (18446744073709551616 : Int) ≠ 0 by norm_num)
  have h2 := Int.emod_lt_of_pos (z + 9223372036854775808)
    (show (0 : Int) < 18446744073709551616 by norm_num)
  omega

theorem wrapInt_add_left (a b : Int) : wrapInt (wrapInt a + b) = wrapInt (a + b) := by
  unfold wrapInt
  congr 1
  have : (a + 9223372036854775808) % 18446744073709551616 - 9223372036854775808 + b
      + 9223372036854775808 = (a + 9223372036854775808) % 18446744073709551616 + b := by ring
  rw [this, Int.emod_add_emod]
  congr 1
  ring

theorem wrapInt_le_of_nonneg (z : Int) (hz : 0 ≤ z) : wrapInt z ≤ z := by
  by_cases h : z ≤ maxInt
  · rw [wrapInt_of_inRange z (by unfold minInt; omega) h]
  · have := (wrapInt_bounds z).2
    omega

/-! ## Lemmas on the intersection loop -/

theorem min_eq_min (a b : Int) : min a b = Min.min a b := by
  unfold min
  split_ifs with h
  · exact (min_eq_left (le_of_lt h)).symm
  · exact (min_eq_right (not_lt.mp h)).symm

/-- The wrapped accumulation of a list of summands is the wrapped exact sum. -/
theorem foldl_wrap_sum (xs : List Int) (acc : Int) :
    xs.foldl (fun d x => wrapInt (d + x)) (wrapInt acc) = wrapInt (acc + xs.sum) := by
  induction xs generalizing acc with
  | nil => simp
  | cons x xs ih =>
    simp only [List.foldl_cons, List.sum_cons]
    rw [wrapInt_add_left, ih, add_assoc]

/-- The index loop over `range (length a)` visits the pairs of `a` and `b` in
order. -/
theorem index_loop_eq_zip (a b : List Int) (hlen : a.length = b.length) (acc : Int) :
    (List.range a.length).foldl
      (fun distance i => wrapInt (distance + min (a.getD i 0) (b.getD i 0))) acc
    = (List.zipWith (fun x y => Min.min x y) a b).foldl (fun d x => wrapInt (d + x)) acc := by
  induction a generalizing b acc with
  | nil => simp
  | cons x xs ih =>
    cases b with
    | nil => simp at hlen
    | cons y ys =>
      simp only [List.length_cons, Nat.add_right_cancel_iff] at hlen
      simp only [List.length_cons, List.range_succ_eq_map, List.foldl_cons, List.foldl_map,
        List.zipWith_cons_cons, List.getD_cons_zero, List.getD_cons_succ]
      rw [ih ys hlen, min_eq_min]

/-- On vectors of equal length the source loop returns the exact sum of the
pairwise minima reduced to the range of a Go `int`. -/
theorem distance_eq_wrap (a b : List Int) (hlen : a.length = b.length) :
    calculateIntersectionDistance a b = wrapInt (sumOfMinima a b) := by
  unfold calculateIntersectionDistance sumOfMinima
  rw [if_neg (by simpa using hlen), index_loop_eq_zip a b hlen]
  have h0 : (0 : Int) = wrapInt 0 := by decide
  rw [h0, foldl_wrap_sum, zero_add]

theorem distance_of_length_ne (a b : List Int) (hlen : a.length ≠ b.length) :
    calculateIntersectionDistance a b = -1 := by
  unfold calculateIntersectionDistance
  rw [if_pos hlen]

theorem sumOfMinima_comm (a b : List Int) : sumOfMinima a b = sumOfMinima b a := by
  unfold sumOfMinima
  induction a generalizing b with
  | nil => cases b <;> simp
  | cons x xs ih =>
    cases b with
    | nil => simp
    | cons y ys => simp [ih ys, min_comm]

theorem sumOfMinima_nonneg (a b : List Int) (ha : ∀ x ∈ a, 0 ≤ x)
    (hb : ∀ y ∈ b, 0 ≤ y) :
    0 ≤ sumOfMinima a b := by
  unfold sumOfMinima
  induction a generalizing b with
  | nil => simp
  | cons x xs ih =>
    cases b with
    | nil => simp
    | cons y ys =>
      simp only [List.zipWith_cons_cons, List.sum_cons]
      have h1 : 0 ≤ Min.min x y := le_min (ha x (by simp)) (hb y (by simp))
      have h2 := ih ys (fun z hz => ha z (by simp [hz])) (fun z hz => hb z (by simp [hz]))
      omega

/-- With equal lengths, the sum of minima is at most the sum of the first
vector, with equality exactly when the first is componentwise below the
second. -/
theorem sumOfMinima_le_left (a b : List Int) (hlen : a.length = b.length) :
    sumOfMinima a b ≤ a.sum ∧
      (sumOfMinima a b = a.sum ↔ ∀ i, i < a.length → a.getD i 0 ≤ b.getD i 0) := by
  unfold sumOfMinima
  induction a generalizing b with
  | nil => simp
  | cons x xs ih =>
    cases b with
    | nil => simp at hlen
    | cons y ys =>
      simp only [List.length_cons, Nat.add_right_cancel_iff] at hlen
      obtain ⟨h1, h2⟩ := ih ys hlen
      simp only [List.zipWith_cons_cons, List.sum_cons, List.length_cons]
      have hm : Min.min x y ≤ x := min_le_left x y
      refine ⟨by omega, ?_⟩
      constructor
      · intro h i hi
        have hx : Min.min x y = x := by omega
        have hs : (List.zipWith (fun x y => Min.min x y) xs ys).sum = xs.sum := by omega
        cases i with
        | zero => simpa using min_eq_left_iff.mp hx
        | succ j =>
          simp only [List.getD_cons_succ]
          exact h2.mp hs j (by omega)
      · intro h
        have hx : x ≤ y := by simpa using h 0 (by omega)
        have hs := h2.mpr (fun j hj => by simpa using h (j + 1) (by omega))
        rw [min_eq_left hx, hs]

/-! ## Claims on `calculateIntersectionDistance` -/

/-- Claim C2, counterexample: on the equal-length vectors `[2^62, 2^62]` the
source loop returns `-2^63` (the accumulator wraps), while the sum of the
pairwise minima is `2^63`. -/
theorem distance_differs_from_exact_sum :
    [4611686018427387904, 4611686018427387904].length
        = [(4611686018427387904 : Int), 4611686018427387904].length
      ∧ calculateIntersectionDistance [4611686018427387904, 4611686018427387904]
          [4611686018427387904, 4611686018427387904] = -9223372036854775808
      ∧ sumOfMinima [4611686018427387904, 4611686018427387904]
          [4611686018427387904, 4611686018427387904] = 9223372036854775808
      ∧ calculateIntersectionDistance [4611686018427387904, 4611686018427387904]
          [4611686018427387904, 4611686018427387904]
        ≠ sumOfMinima [4611686018427387904, 4611686018427387904]
          [4611686018427387904, 4611686018427387904] := by
  decide

/-- Claim C2, amended: for vectors of equal length `calculateIntersectionDistance`
returns the sum of the pairwise minima reduced to the 64-bit range of a Go
`int`; it is the exact sum whenever that sum lies in the range, and `0` for two
empty vectors. -/
theorem distance_is_wrapped_sum_of_minima (a b : List Int) (hlen : a.length = b.length) :
    calculateIntersectionDistance a b = wrapInt (sumOfMinima a b)
      ∧ (minInt ≤ sumOfMinima a b → sumOfMinima a b ≤ maxInt →
          calculateIntersectionDistance a b = sumOfMinima a b)
      ∧ calculateIntersectionDistance [] [] = 0 := by
  refine ⟨distance_eq_wrap a b hlen, ?_, by decide⟩
  intro hlo hhi
  rw [distance_eq_wrap a b hlen, wrapInt_of_inRange _ hlo hhi]

/-- Claim C2, witness: the amended statement at `[3, 1, 4]` and `[2, 7, 1]`,
where the distance is `2 + 1 + 1 = 4`. -/
theorem distance_is_wrapped_sum_of_minima_witness :
    calculateIntersectionDistance [3, 1, 4] [2, 7, 1] = 4 :=
  ((distance_is_wrapped_sum_of_minima [3, 1, 4] [2, 7, 1] (by decide)).2.1
    (by decide) (by decide)).trans (by decide)

/-- Claim C5, counterexample: the equal-length vectors `[2^63-1, 2^63-1, 1]`
have non-negative entries, yet the source loop returns the sentinel `-1`. -/
theorem sentinel_on_equal_lengths :
    [9223372036854775807, 9223372036854775807, 1].length
        = [(9223372036854775807 : Int), 9223372036854775807, 1].length
      ∧ (∀ x ∈ [(9223372036854775807 : Int), 9223372036854775807, 1], 0 ≤ x)
      ∧ calculateIntersectionDistance [9223372036854775807, 9223372036854775807, 1]
          [9223372036854775807, 9223372036854775807, 1] = -1 := by
  decide

/-- Claim C5, amended: `calculateIntersectionDistance` returns `-1` whenever the
lengths differ; and on vectors with non-negative entries whose sum of pairwise
minima does not exceed the largest Go `int` (when the lengths agree), the result
is `-1` if and only if the lengths differ. -/
theorem sentinel_iff_length_mismatch (a b : List Int) :
    (a.length ≠ b.length → calculateIntersectionDistance a b = -1)
      ∧ ((∀ x ∈ a, 0 ≤ x) → (∀ y ∈ b, 0 ≤ y) →
          (a.length = b.length → sumOfMinima a b ≤ maxInt) →
          (calculateIntersectionDistance a b = -1 ↔ a.length ≠ b.length)) := by
  refine ⟨distance_of_length_ne a b, ?_⟩
  intro ha hb hfit
  constructor
  · intro h hlen
    have h0 := sumOfMinima_nonneg a b ha hb
    rw [distance_eq_wrap a b hlen,
      wrapInt_of_inRange _ (by unfold minInt; omega) (hfit hlen)] at h
    omega
  · exact distance_of_length_ne a b

/-- Claim C5, witness: the amended statement at `[3, 1, 4]` and `[2, 7, 1]`
(equal lengths, so no sentinel). -/
theorem sentinel_iff_length_mismatch_witness :
    (calculateIntersectionDistance [3, 1, 4] [2, 7] = -1)
      ∧ (calculateIntersectionDistance [3, 1, 4] [2, 7, 1] = -1
          ↔ [(3 : Int), 1, 4].length ≠ [(2 : Int), 7, 1].length) :=
  ⟨(sentinel_iff_length_mismatch [3, 1, 4] [2, 7]).1 (by decide),
   (sentinel_iff_length_mismatch [3, 1, 4] [2, 7, 1]).2 (by decide) (by decide)
     (fun _ => by decide)⟩

/-- Claim C6, counterexample: on the equal-length non-negative vectors
`[2^63-1, 1]` the source loop returns `-2^63`, below the claimed lower bound
`0`. -/
theorem distance_negative_on_nonneg :
    (∀ x ∈ [(9223372036854775807 : Int), 1], 0 ≤ x)
      ∧ calculateIntersectionDistance [9223372036854775807, 1] [9223372036854775807, 1]
          = -9223372036854775808
      ∧ ¬ (0 ≤ calculateIntersectionDistance [9223372036854775807, 1]
          [9223372036854775807, 1]) := by
  decide

/-- Claim C6, amended: for equal-length vectors with non-negative entries the
result is at most `min(sum(a), sum(b))`, and it is at least `0` whenever the sum
of the pairwise minima does not exceed the largest Go `int`. -/
theorem distance_bounds (a b : List Int) (hlen : a.length = b.length)
    (ha : ∀ x ∈ a, 0 ≤ x) (hb : ∀ y ∈ b, 0 ≤ y) :
    calculateIntersectionDistance a b ≤ Min.min a.sum b.sum
      ∧ (sumOfMinima a b ≤ maxInt → 0 ≤ calculateIntersectionDistance a b) := by
  have h0 := sumOfMinima_nonneg a b ha hb
  have hl := (sumOfMinima_le_left a b hlen).1
  have hr := (sumOfMinima_le_left b a hlen.symm).1
  rw [sumOfMinima_comm b a] at hr
  rw [distance_eq_wrap a b hlen]
  constructor
  · exact le_trans (wrapInt_le_of_nonneg _ h0) (le_min hl hr)
  · intro hfit
    rw [wrapInt_of_inRange _ (by unfold minInt; omega) hfit]
    exact h0

/-- Claim C6, witness: the amended bounds at `[3, 1, 4]` and `[2, 7, 1]`. -/
theorem distance_bounds_witness :
    calculateIntersectionDistance [3, 1, 4] [2, 7, 1]
        ≤ Min.min ([3, 1, 4] : List Int).sum ([2, 7, 1] : List Int).sum
      ∧ 0 ≤ calculateIntersectionDistance [3, 1, 4] [2, 7, 1] :=
  ⟨(distance_bounds [3, 1, 4] [2, 7, 1] (by decide) (by decide) (by decide)).1,
   (distance_bounds [3, 1, 4] [2, 7, 1] (by decide) (by decide) (by decide)).2 (by decide)⟩

/-- Claim C7, counterexample: `a = [2^63-1, 5]` is componentwise below
`b = [2^63-1, 7]` (equal lengths, non-negative entries), yet the source loop
returns `-2^63 + 4`, not `min(sum(a), sum(b)) = 2^63 + 4`; and the
self-intersection of `a` differs from `sum(a)`. -/
theorem distance_misses_bound_when_dominated :
    [(9223372036854775807 : Int), 5].length = [(9223372036854775807 : Int), 7].length
      ∧ (∀ x ∈ [(9223372036854775807 : Int), 5], 0 ≤ x)
      ∧ (∀ y ∈ [(9223372036854775807 : Int), 7], 0 ≤ y)
      ∧ (∀ i, i < [(9223372036854775807 : Int), 5].length →
        [(9223372036854775807 : Int), 5].getD i 0 ≤ [(9223372036854775807 : Int), 7].getD i 0)
      ∧ calculateIntersectionDistance [9223372036854775807, 5] [9223372036854775807, 7]
          = -9223372036854775804
      ∧ Min.min ([9223372036854775807, 5] : List Int).sum
          ([9223372036854775807, 7] : List Int).sum = 9223372036854775812
      ∧ calculateIntersectionDistance [9223372036854775807, 5] [9223372036854775807, 7]
          ≠ Min.min ([9223372036854775807, 5] : List Int).sum
              ([9223372036854775807, 7] : List Int).sum
      ∧ calculateIntersectionDistance [9223372036854775807, 5] [9223372036854775807, 5]
          ≠ ([9223372036854775807, 5] : List Int).sum := by
  refine ⟨by decide, by decide, by decide, ?_, by decide, by decide, by decide, by decide⟩
  intro i hi
  simp only [List.length_cons, List.length_nil] at hi
  interval_cases i <;> simp

/-- Claim C7, amended: for equal-length vectors with non-negative entries whose
sum of pairwise minima does not exceed the largest Go `int`, the result equals
`min(sum(a), sum(b))` if and only if `a[i] <= b[i]` for every `i` or
`b[i] <= a[i]` for every `i`; in particular the self-intersection of `a` is
`sum(a)` when `sum(a)` does not exceed the largest Go `int`. -/
theorem distance_attains_bound_iff (a b : List Int) (hlen : a.length = b.length)
    (ha : ∀ x ∈ a, 0 ≤ x) (hb : ∀ y ∈ b, 0 ≤ y) (hfit : sumOfMinima a b ≤ maxInt) :
    (calculateIntersectionDistance a b = Min.min a.sum b.sum ↔
        ((∀ i, i < a.length → a.getD i 0 ≤ b.getD i 0)
          ∨ (∀ i, i < a.length → b.getD i 0 ≤ a.getD i 0)))
      ∧ (a.sum ≤ maxInt → calculateIntersectionDistance a a = a.sum) := by
  have h0 := sumOfMinima_nonneg a b ha hb
  obtain ⟨hl, hliff⟩ := sumOfMinima_le_left a b hlen
  obtain ⟨hr, hriff⟩ := sumOfMinima_le_left b a hlen.symm
  rw [sumOfMinima_comm b a] at hr hriff
  rw [← hlen] at hriff
  constructor
  · rw [distance_eq_wrap a b hlen, wrapInt_of_inRange _ (by unfold minInt; omega) hfit,
      ← hliff, ← hriff]
    constructor
    · intro h
      rcases min_choice a.sum b.sum with hm | hm
      · exact Or.inl (h.trans hm)
      · exact Or.inr (h.trans hm)
    · rintro (h | h)
      · rw [h]; exact (min_eq_left (by omega)).symm
      · rw [h]; exact (min_eq_right (by omega)).symm
  · intro hsum
    have hself : sumOfMinima a a = a.sum :=
      (sumOfMinima_le_left a a rfl).2.mpr (fun i _ => le_refl _)
    have hs0 := sumOfMinima_nonneg a a ha ha
    rw [distance_eq_wrap a a rfl, hself,
      wrapInt_of_inRange _ (by rw [← hself]; unfold minInt; omega) hsum]

/-- Claim C7, witness: the amended statement at `a = [1, 2, 3]`, `b = [4, 2, 5]`,
where `a` is componentwise below `b`. -/
theorem distance_attains_bound_iff_witness :
    (calculateIntersectionDistance [1, 2, 3] [4, 2, 5]
        = Min.min ([1, 2, 3] : List Int).sum ([4, 2, 5] : List Int).sum ↔
        ((∀ i, i < [(1 : Int), 2, 3].length →
            [(1 : Int), 2, 3].getD i 0 ≤ [(4 : Int), 2, 5].getD i 0)
          ∨ (∀ i, i < [(1 : Int), 2, 3].length →
            [(4 : Int), 2, 5].getD i 0 ≤ [(1 : Int), 2, 3].getD i 0)))
      ∧ calculateIntersectionDistance [1, 2, 3] [1, 2, 3] = ([1, 2, 3] : List Int).sum :=
  ⟨(distance_attains_bound_iff [1, 2, 3] [4, 2, 5] (by decide) (by decide) (by decide)
      (by decide)).1,
   (distance_attains_bound_iff [1, 2, 3] [4, 2, 5] (by decide) (by decide) (by decide)
      (by decide)).2 (by decide)⟩

/-- Claim C8: for every pair of integer vectors, of equal or of different
lengths, `calculateIntersectionDistance a b = calculateIntersectionDistance b a`. -/
theorem distance_symmetric (a b : List Int) :
    calculateIntersectionDistance a b = calculateIntersectionDistance b a := by
  by_cases hlen : a.length = b.length
  · rw [distance_eq_wrap a b hlen, distance_eq_wrap b a hlen.symm, sumOfMinima_comm]
  · rw [distance_of_length_ne a b hlen, distance_of_length_ne b a (Ne.symm hlen)]

/-! ## Lemmas on the histogram builder -/

theorem getD_le_sum (h : List Int) (hnn : ∀ i, i < h.length → 0 ≤ h.getD i 0)
    (k : Nat) (hk : k < h.length) : h.getD k 0 ≤ h.sum := by
  induction h generalizing k with
  | nil => simp at hk
  | cons x xs ih =>
    have hx : 0 ≤ x := by simpa using hnn 0 (by simp)
    have hxs : ∀ i, i < xs.length → 0 ≤ xs.getD i 0 := fun i hi => by
      simpa using hnn (i + 1) (by simpa using hi)
    have hsum : 0 ≤ xs.sum := List.sum_nonneg (fun y hy => by
      obtain ⟨i, hi, rfl⟩ := List.getElem_of_mem hy
      have h0 := hxs i hi
      rw [List.getD_eq_getElem _ _ hi] at h0
      exact h0)
    cases k with
    | zero => simp only [List.getD_cons_zero, List.sum_cons]; omega
    | succ j =>
      simp only [List.getD_cons_succ, List.sum_cons]
      have := ih hxs j (by simpa using hk)
      omega

theorem sum_set_eq (h : List Int) (k : Nat) (hk : k < h.length) (v : Int) :
    (h.set k v).sum = h.sum - h.getD k 0 + v := by
  induction h generalizing k with
  | nil => simp at hk
  | cons x xs ih =>
    cases k with
    | zero => simp only [List.set_cons_zero, List.sum_cons, List.getD_cons_zero]; omega
    | succ j =>
      simp only [List.set_cons_succ, List.sum_cons, List.getD_cons_succ]
      rw [ih j (by simpa using hk)]
      omega

theorem getD_set_eq (h : List Int) (k i : Nat) (hk : k < h.length) (v : Int) :
    (h.set k v).getD i 0 = if i = k then v else h.getD i 0 := by
  induction h generalizing k i with
  | nil => simp at hk
  | cons x xs ih =>
    cases k with
    | zero =>
      cases i with
      | zero => simp
      | succ i => simp
    | succ j =>
      cases i with
      | zero => simp
      | succ i =>
        simp only [List.set_cons_succ, List.getD_cons_succ, Nat.add_right_cancel_iff]
        exact ih j i (by simpa using hk)

theorem Tallies.congr {n : Nat} {h : List Int} {f g : Nat → Nat} {m m2 : Nat}
    (ht : Tallies n h f m) (hfg : ∀ i, f i = g i) (hm : m = m2) : Tallies n h g m2 := by
  subst hm
  exact ⟨ht.1, fun i hi => by rw [ht.2.1 i hi, hfg i], ht.2.2⟩

/-- One `histogram[k]++` inside the slice and below the `int` limit adds one to
bin `k` and one to the total. -/
theorem incrementBin_tallies {n : Nat} {h : List Int} {f : Nat → Nat} {m : Nat}
    (ht : Tallies n h f m) (k : Nat) (hk : k < n) (hm : (m : Int) < maxInt) :
    ∃ h2, incrementBin h k = .ok h2
      ∧ Tallies n h2 (fun i => f i + (if k = i then 1 else 0)) (m + 1) := by
  obtain ⟨hlen, hget, hsum⟩ := ht
  have hk2 : k < h.length := by omega
  have hle : h.getD k 0 ≤ h.sum :=
    getD_le_sum h (fun i hi => by rw [hget i (by omega)]; exact Int.natCast_nonneg _) k hk2
  have hfk := hget k hk
  have hw : wrapInt (h.getD k 0 + 1) = h.getD k 0 + 1 := by
    apply wrapInt_of_inRange
    · unfold minInt; rw [hfk]; have := Int.natCast_nonneg (f k); omega
    · omega
  refine ⟨h.set k (h.getD k 0 + 1), ?_, ?_, ?_, ?_⟩
  · unfold incrementBin
    rw [if_pos hk2, hw]
  · rw [List.length_set, hlen]
  · intro i hi
    rw [getD_set_eq h k i hk2]
    by_cases hik : i = k
    · subst hik
      rw [if_pos rfl, hfk]
      show (f i : Int) + 1 = ((f i + if i = i then 1 else 0 : Nat) : Int)
      rw [if_pos rfl]
      push_cast
      rfl
    · have hki : ¬ k = i := fun e => hik e.symm
      rw [if_neg hik, hget i hi]
      show (f i : Int) = ((f i + if k = i then 1 else 0 : Nat) : Int)
      rw [if_neg hki, Nat.add_zero]
  · rw [sum_set_eq h k hk2, hsum]
    push_cast
    omega

/-- One pixel adds its three channel hits to the bins and 3 to the total. -/
theorem countPixel_tallies {n : Nat} {h : List Int} {f : Nat → Nat} {m : Nat}
    (ht : Tallies n h f m) (c : RGBA)
    (hr : c.red >>> 8 < n) (hg : c.green >>> 8 < n) (hb : c.blue >>> 8 < n)
    (hm : (m : Int) + 3 ≤ maxInt) :
    ∃ h2, countPixel h c = .ok h2
      ∧ Tallies n h2 (fun i => f i + channelHits c i) (m + 3) := by
  obtain ⟨h1, e1, t1⟩ := incrementBin_tallies ht (c.red >>> 8) hr (by omega)
  obtain ⟨h2, e2, t2⟩ := incrementBin_tallies t1 (c.green >>> 8) hg (by push_cast; omega)
  obtain ⟨h3, e3, t3⟩ := incrementBin_tallies t2 (c.blue >>> 8) hb (by push_cast; omega)
  refine ⟨h3, ?_, t3.congr (fun i => by unfold channelHits; omega) rfl⟩
  unfold countPixel
  simp only [e1, e2, e3, bind, Except.bind]

/-- The inner loop over any list `xs` of column indices. -/
theorem row_tallies (grid : Nat → Nat → RGBA) (y n : Nat) (xs : List Nat)
    (hin : ∀ x ∈ xs, (grid x y).red >>> 8 < n ∧ (grid x y).green >>> 8 < n
      ∧ (grid x y).blue >>> 8 < n)
    {h : List Int} {f : Nat → Nat} {m : Nat} (ht : Tallies n h f m)
    (hm : (m : Int) + 3 * xs.length ≤ maxInt) :
    ∃ h2, xs.foldlM (fun histogram x => countPixel histogram (grid x y)) h = .ok h2
      ∧ Tallies n h2 (fun i => f i + (xs.map (fun x => channelHits (grid x y) i)).sum)
          (m + 3 * xs.length) := by
  induction xs generalizing h f m with
  | nil => exact ⟨h, rfl, ht.congr (fun i => by simp) (by simp)⟩
  | cons x xs ih =>
    simp only [List.length_cons] at hm
    push_cast at hm
    obtain ⟨hr, hg, hb⟩ := hin x (by simp)
    obtain ⟨h1, e1, t1⟩ := countPixel_tallies ht (grid x y) hr hg hb (by omega)
    obtain ⟨h2, e2, t2⟩ := ih (fun z hz => hin z (by simp [hz])) t1 (by push_cast; omega)
    refine ⟨h2, ?_, t2.congr (fun i => by simp only [List.map_cons, List.sum_cons]; omega)
      (by simp only [List.length_cons]; omega)⟩
    simp only [List.foldlM_cons, e1, bind, Except.bind]
    exact e2

/-- The outer loop over any list `ys` of row indices, each row scanning the
columns `0 .. w-1`. -/
theorem rows_tallies (grid : Nat → Nat → RGBA) (w n : Nat) (ys : List Nat)
    (hin : ∀ y ∈ ys, ∀ x, x < w → (grid x y).red >>> 8 < n ∧ (grid x y).green >>> 8 < n
      ∧ (grid x y).blue >>> 8 < n)
    {h : List Int} {f : Nat → Nat} {m : Nat} (ht : Tallies n h f m)
    (hm : (m : Int) + 3 * w * ys.length ≤ maxInt) :
    ∃ h2, ys.foldlM (fun histogram y => (List.range w).foldlM
          (fun histogram x => countPixel histogram (grid x y)) histogram) h = .ok h2
      ∧ Tallies n h2
          (fun i => f i + (ys.map (fun y =>
            ((List.range w).map (fun x => channelHits (grid x y) i)).sum)).sum)
          (m + 3 * w * ys.length) := by
  induction ys generalizing h f m with
  | nil => exact ⟨h, rfl, ht.congr (fun i => by simp) (by simp)⟩
  | cons y ys ih =>
    simp only [List.length_cons] at hm
    push_cast at hm
    have hw : (0 : Int) ≤ 3 * (w : Int) * (ys.length : Int) := by positivity
    obtain ⟨h1, e1, t1⟩ := row_tallies grid y n (List.range w)
      (fun x hx => hin y (by simp) x (List.mem_range.mp hx)) ht
      (by rw [List.length_range]; nlinarith)
    rw [List.length_range] at t1
    obtain ⟨h2, e2, t2⟩ := ih (fun z hz => hin z (by simp [hz])) t1
      (by push_cast; nlinarith)
    refine ⟨h2, ?_, t2.congr (fun i => by simp only [List.map_cons, List.sum_cons]; omega)
      (by simp only [List.length_cons]; ring)⟩
    simp only [List.foldlM_cons, e1, bind, Except.bind]
    exact e2

theorem tallies_replicate (n : Nat) : Tallies n (List.replicate n 0) (fun _ => 0) 0 := by
  refine ⟨List.length_replicate _ _, ?_, ?_⟩
  · intro i hi
    rw [List.getD_eq_getElem _ _ (by rw [List.length_replicate]; exact hi),
      List.getElem_replicate]
    rfl
  · rw [List.sum_replicate, smul_zero]
    rfl

theorem tallies_unique {n : Nat} {h1 h2 : List Int} {f : Nat → Nat} {m1 : Nat}
    (t1 : Tallies n h1 f m1) (hl : h2.length = n)
    (hg : ∀ i, i < n → h2.getD i 0 = (f i : Int)) : h1 = h2 := by
  apply List.ext_getElem (by rw [t1.1, hl])
  intro i hi1 hi2
  have e1 := t1.2.1 i (by rw [← t1.1]; exact hi1)
  have e2 := hg i (by rw [← hl]; exact hi2)
  rw [List.getD_eq_getElem _ _ hi1] at e1
  rw [List.getD_eq_getElem _ _ hi2] at e2
  rw [e1, e2]

/-- With `depth = D`, a decoded `W × H` grid whose quantised samples are at most
`D`, and `3 · W · H` within the Go `int` range, `computeHistogram` returns the
record whose `D + 1` bins are the sample counts and add up to `3 · W · H`. -/
theorem computeHistogram_tallies (decode : String → Except String Image)
    (imagePath : String) (grid : Nat → Nat → RGBA) (W H D : Nat)
    (hdec : decode imagePath = .ok ⟨(W : Int), (H : Int), grid⟩)
    (hD : (D : Int) + 1 ≤ maxInt)
    (hin : ∀ x y, x < W → y < H → (grid x y).red >>> 8 ≤ D ∧ (grid x y).green >>> 8 ≤ D
      ∧ (grid x y).blue >>> 8 ≤ D)
    (hfit : (3 * W * H : Int) ≤ maxInt) :
    ∃ bins, computeHistogram decode imagePath (D : Int) = .ok ⟨imagePath, bins⟩
      ∧ Tallies (D + 1) bins (sampleCount grid W H) (3 * W * H) := by
  have hw : wrapInt ((D : Int) + 1) = ((D + 1 : Nat) : Int) := by
    rw [wrapInt_of_inRange _ (by unfold minInt; omega) hD]
    push_cast
    rfl
  obtain ⟨bins, e, t⟩ := rows_tallies grid W (D + 1) (List.range H)
    (fun y hy x hx => by
      obtain ⟨h1, h2, h3⟩ := hin x y hx (List.mem_range.mp hy)
      omega)
    (tallies_replicate (D + 1))
    (by rw [List.length_range]; push_cast; omega)
  rw [List.length_range] at t
  refine ⟨bins, ?_, t.congr (fun i => by unfold sampleCount; omega) (by omega)⟩
  unfold computeHistogram
  rw [hdec]
  simp only [hw]
  rw [if_neg (by omega), Int.toNat_natCast]
  unfold scanImage scanRow
  simp only [Int.toNat_natCast]
  rw [e]

theorem shift_le_255 (v : Nat) (hv : v ≤ 65535) : v >>> 8 ≤ 255 := by
  rw [Nat.shiftRight_eq_div_pow]
  omega

theorem sampleCount_congr (g1 g2 : Nat → Nat → RGBA) (W H i : Nat)
    (hrgb : ∀ x y, x < W → y < H → (g2 x y).red = (g1 x y).red
      ∧ (g2 x y).green = (g1 x y).green ∧ (g2 x y).blue = (g1 x y).blue) :
    sampleCount g2 W H i = sampleCount g1 W H i := by
  unfold sampleCount
  congr 1
  apply List.map_congr_left
  intro y hy
  congr 1
  apply List.map_congr_left
  intro x hx
  obtain ⟨h1, h2, h3⟩ := hrgb x y (List.mem_range.mp hx) (List.mem_range.mp hy)
  unfold channelHits
  rw [h1, h2, h3]

/-! ## Claims on `computeHistogram` -/

/-- Claim C3: for a decoded `W × H` pixel grid whose red, green and blue samples
lie in `[0, 65535]` (and whose `3 · W · H` samples are countable in a Go `int`),
`computeHistogram` with `depth = 255` returns a histogram of length 256, every
bin is non-negative, bin `i` is the number of (pixel, channel) pairs over red,
green and blue whose value shifted right by 8 equals `i`, and a grid that
differs only in alpha gives the same result. -/
theorem computeHistogram_counts_samples (decode : String → Except String Image)
    (imagePath : String) (grid : Nat → Nat → RGBA) (W H : Nat)
    (hdec : decode imagePath = .ok ⟨(W : Int), (H : Int), grid⟩)
    (hsamples : ∀ x y, x < W → y < H → (grid x y).red ≤ 65535 ∧ (grid x y).green ≤ 65535
      ∧ (grid x y).blue ≤ 65535)
    (hfit : (3 * W * H : Int) ≤ maxInt) :
    ∃ bins, computeHistogram decode imagePath 255 = .ok ⟨imagePath, bins⟩
      ∧ bins.length = 255 + 1
      ∧ (∀ v ∈ bins, 0 ≤ v)
      ∧ (∀ i, i < 256 → bins.getD i 0 = (sampleCount grid W H i : Int))
      ∧ (∀ grid2 : Nat → Nat → RGBA,
          (∀ x y, x < W → y < H → (grid2 x y).red = (grid x y).red
            ∧ (grid2 x y).green = (grid x y).green ∧ (grid2 x y).blue = (grid x y).blue) →
          computeHistogram (fun _ => .ok ⟨(W : Int), (H : Int), grid2⟩) imagePath 255
            = .ok ⟨imagePath, bins⟩) := by
  have hin : ∀ x y, x < W → y < H → (grid x y).red >>> 8 ≤ 255
      ∧ (grid x y).green >>> 8 ≤ 255 ∧ (grid x y).blue >>> 8 ≤ 255 := fun x y hx hy => by
    obtain ⟨h1, h2, h3⟩ := hsamples x y hx hy
    exact ⟨shift_le_255 _ h1, shift_le_255 _ h2, shift_le_255 _ h3⟩
  obtain ⟨bins, e, t⟩ := computeHistogram_tallies decode imagePath grid W H 255 hdec
    (by decide) hin hfit
  refine ⟨bins, e, t.1, ?_, t.2.1, ?_⟩
  · intro v hv
    obtain ⟨i, hi, rfl⟩ := List.getElem_of_mem hv
    have hg := t.2.1 i (by rw [← t.1]; exact hi)
    rw [List.getD_eq_getElem _ _ hi] at hg
    rw [hg]
    exact Int.natCast_nonneg _
  · intro grid2 hrgb
    obtain ⟨bins2, e2, t2⟩ := computeHistogram_tallies
      (fun _ => .ok ⟨(W : Int), (H : Int), grid2⟩) imagePath grid2 W H 255 rfl (by decide)
      (fun x y hx hy => by
        obtain ⟨h1, h2, h3⟩ := hrgb x y hx hy
        rw [h1, h2, h3]
        exact hin x y hx hy)
      hfit
    have hb : bins2 = bins :=
      tallies_unique t2 t.1 (fun i hi => by
        rw [t.2.1 i hi, sampleCount_congr grid grid2 W H i hrgb])
    rw [← hb]
    exact e2

/-- Claim C3, witness: the 2 × 2 all-white image yields 256 bins with
`bins[255] = 12` and `bins[0] = 0`. -/
theorem computeHistogram_counts_samples_witness :
    ∃ bins, computeHistogram decodeWhite "white.jpg" 255 = .ok ⟨"white.jpg", bins⟩
      ∧ bins.length = 256 ∧ bins.getD 255 0 = 12 ∧ bins.getD 0 0 = 0 := by
  obtain ⟨bins, h1, h2, _, h4, _⟩ := computeHistogram_counts_samples decodeWhite "white.jpg"
    (fun _ _ => whitePixel) 2 2 rfl
    (fun _ _ _ _ => (by decide : whitePixel.red ≤ 65535 ∧ whitePixel.green ≤ 65535
      ∧ whitePixel.blue ≤ 65535))
    (by decide)
  exact ⟨bins, h1, h2, by rw [h4 255 (by decide)]; decide, by rw [h4 0 (by decide)]; decide⟩

/-- Claim C4: for a decoded `W × H` pixel grid, `W = 0` or `H = 0` included, with
red, green and blue samples in `[0, 65535]` (and `3 · W · H` within the Go `int`
range), the histogram returned by `computeHistogram` with `depth = 255`
satisfies `sum(bins) = 3 · W · H`. -/
theorem computeHistogram_sum (decode : String → Except String Image)
    (imagePath : String) (grid : Nat → Nat → RGBA) (W H : Nat)
    (hdec : decode imagePath = .ok ⟨(W : Int), (H : Int), grid⟩)
    (hsamples : ∀ x y, x < W → y < H → (grid x y).red ≤ 65535 ∧ (grid x y).green ≤ 65535
      ∧ (grid x y).blue ≤ 65535)
    (hfit : (3 * W * H : Int) ≤ maxInt) :
    ∃ bins, computeHistogram decode imagePath 255 = .ok ⟨imagePath, bins⟩
      ∧ bins.sum = 3 * (W : Int) * (H : Int) := by
  obtain ⟨bins, e, t⟩ := computeHistogram_tallies decode imagePath grid W H 255 hdec
    (by decide)
    (fun x y hx hy => by
      obtain ⟨h1, h2, h3⟩ := hsamples x y hx hy
      exact ⟨shift_le_255 _ h1, shift_le_255 _ h2, shift_le_255 _ h3⟩)
    hfit
  refine ⟨bins, e, ?_⟩
  rw [t.2.2]
  push_cast
  rfl

/-- Claim C4, witness: the bins of the 2 × 2 all-white image add up to 12, and
those of a zero-area image (width 0, height 5) add up to 0. -/
theorem computeHistogram_sum_witness :
    (∃ bins, computeHistogram decodeWhite "white.jpg" 255 = .ok ⟨"white.jpg", bins⟩
      ∧ bins.sum = 12)
    ∧ (∃ bins, computeHistogram decodeEmpty "empty.jpg" 255 = .ok ⟨"empty.jpg", bins⟩
      ∧ bins.sum = 0) := by
  obtain ⟨b1, e1, s1⟩ := computeHistogram_sum decodeWhite "white.jpg"
    (fun _ _ => whitePixel) 2 2 rfl
    (fun _ _ _ _ => (by decide : whitePixel.red ≤ 65535 ∧ whitePixel.green ≤ 65535
      ∧ whitePixel.blue ≤ 65535))
    (by decide)
  obtain ⟨b2, e2, s2⟩ := computeHistogram_sum decodeEmpty "empty.jpg"
    (fun _ _ => whitePixel) 0 5 rfl
    (fun _ _ _ _ => (by decide : whitePixel.red ≤ 65535 ∧ whitePixel.green ≤ 65535
      ∧ whitePixel.blue ≤ 65535))
    (by decide)
  exact ⟨⟨b1, e1, by rw [s1]; decide⟩, ⟨b2, e2, by rw [s2]; decide⟩⟩

/-! ## Collector loop -/

theorem blackBins_length (n : Nat) : (blackBins n).length = 256 := by
  simp only [blackBins, List.length_replicate, List.length_cons]

/-- Distance between the histograms of two all-black images. -/
theorem black_distance (j k : Nat) (hj : 3 * (j : Int) ≤ maxInt) :
    calculateIntersectionDistance (blackBins j) (blackBins k)
      = Min.min (3 * (j : Int)) (3 * (k : Int)) := by
  rw [distance_eq_wrap _ _ (by rw [blackBins_length, blackBins_length])]
  have hsum : sumOfMinima (blackBins j) (blackBins k)
      = Min.min (3 * (j : Int)) (3 * (k : Int)) := by
    unfold sumOfMinima blackBins
    simp only [List.zipWith_cons_cons, List.zipWith_replicate', List.sum_cons,
      List.sum_replicate, min_self, smul_zero, add_zero]
  rw [hsum]
  apply wrapInt_of_inRange
  · unfold minInt
    have h1 : (0 : Int) ≤ Min.min (3 * (j : Int)) (3 * (k : Int)) :=
      le_min (by omega) (by omega)
    omega
  · exact le_trans (min_le_left _ _) hj

theorem black_distance_to_query (k : Nat) (hk : k ≤ 6) :
    calculateIntersectionDistance (blackBins 6) (blackBins k) = 3 * (k : Int) := by
  rw [black_distance 6 k (by decide)]
  exact min_eq_right (by push_cast; omega)

theorem sampleCount_const (c : RGBA) (W H i : Nat) :
    sampleCount (fun _ _ => c) W H i = H * (W * channelHits c i) := by
  unfold sampleCount
  simp only [List.map_const', List.sum_replicate, List.length_range, smul_eq_mul]

theorem channelHits_black (i : Nat) : channelHits blackPixel i = if i = 0 then 3 else 0 := by
  unfold channelHits blackPixel
  simp only [Nat.zero_shiftRight]
  by_cases h : 0 = i
  · subst h; rfl
  · have h2 : ¬ i = 0 := fun e => h e.symm
    simp only [h, h2, if_false]

/-- The histogram of an all-black `W × H` image is `blackBins (W * H)`. -/
theorem computeHistogram_black (decode : String → Except String Image) (imagePath : String)
    (W H : Nat) (hdec : decode imagePath = .ok ⟨(W : Int), (H : Int), fun _ _ => blackPixel⟩)
    (hfit : (3 * W * H : Int) ≤ maxInt) :
    computeHistogram decode imagePath 255 = .ok (blackRecord imagePath (W * H)) := by
  obtain ⟨bins, e, t⟩ := computeHistogram_tallies decode imagePath (fun _ _ => blackPixel)
    W H 255 hdec (by decide)
    (fun _ _ _ _ => (by decide : blackPixel.red >>> 8 ≤ 255 ∧ blackPixel.green >>> 8 ≤ 255
      ∧ blackPixel.blue >>> 8 ≤ 255)) hfit
  have e2 : computeHistogram decode imagePath 255 = .ok ⟨imagePath, bins⟩ := e
  have hb : bins = blackBins (W * H) := by
    apply tallies_unique t (blackBins_length _)
    intro i hi
    rw [sampleCount_const, channelHits_black]
    unfold blackBins
    cases i with
    | zero =>
      rw [List.getD_cons_zero, if_pos rfl]
      push_cast
      ring
    | succ k =>
      rw [List.getD_cons_succ, if_neg (Nat.succ_ne_zero k),
        List.getD_eq_getElem _ _ (by rw [List.length_replicate]; omega),
        List.getElem_replicate]
      simp
  rw [e2, hb]
  rfl

/-- The seven images of `decodeBlack` yield the query record and the six
candidate records of the concrete runs below. -/
theorem black_dataset_histograms :
    computeHistogram decodeBlack "q.jpg" 255 = .ok (blackRecord "q.jpg" 6)
      ∧ ["data/a.jpg", "data/b.jpg", "data/c.jpg", "data/d.jpg", "data/e.jpg",
          "data/f.jpg"].map (fun path => computeHistogram decodeBlack path 255)
        = [.ok (blackRecord "data/a.jpg" 5), .ok (blackRecord "data/b.jpg" 1),
           .ok (blackRecord "data/c.jpg" 2), .ok (blackRecord "data/d.jpg" 3),
           .ok (blackRecord "data/e.jpg" 4), .ok (blackRecord "data/f.jpg" 6)] := by
  refine ⟨computeHistogram_black decodeBlack "q.jpg" 3 2 rfl (by decide), ?_⟩
  simp only [List.map_cons, List.map_nil]
  rw [computeHistogram_black decodeBlack "data/a.jpg" 5 1 rfl (by decide),
    computeHistogram_black decodeBlack "data/b.jpg" 1 1 rfl (by decide),
    computeHistogram_black decodeBlack "data/c.jpg" 2 1 rfl (by decide),
    computeHistogram_black decodeBlack "data/d.jpg" 3 1 rfl (by decide),
    computeHistogram_black decodeBlack "data/e.jpg" 2 2 rfl (by decide),
    computeHistogram_black decodeBlack "data/f.jpg" 3 2 rfl (by decide)]

/-- The Collector loop on the six candidates in the arrival order
`a, b, c, d, e, f`. -/
theorem query_run_arrival_order :
    collectorLoop (blackRecord "q.jpg" 6)
        [blackRecord "data/a.jpg" 5, blackRecord "data/b.jpg" 1, blackRecord "data/c.jpg" 2,
         blackRecord "data/d.jpg" 3, blackRecord "data/e.jpg" 4, blackRecord "data/f.jpg" 6]
      = [blackRecord "data/f.jpg" 6, blackRecord "data/b.jpg" 1, blackRecord "data/c.jpg" 2,
         blackRecord "data/d.jpg" 3, blackRecord "data/e.jpg" 4] := by
  simp [collectorLoop, collectorStep, findMinDistanceIdx, blackRecord,
    black_distance_to_query]

/-- The Collector loop on the same candidates in the arrival order
`b, c, d, e, a, f`. -/
theorem query_run_other_order :
    collectorLoop (blackRecord "q.jpg" 6)
        [blackRecord "data/b.jpg" 1, blackRecord "data/c.jpg" 2, blackRecord "data/d.jpg" 3,
         blackRecord "data/e.jpg" 4, blackRecord "data/a.jpg" 5, blackRecord "data/f.jpg" 6]
      = [blackRecord "data/f.jpg" 6, blackRecord "data/c.jpg" 2, blackRecord "data/d.jpg" 3,
         blackRecord "data/e.jpg" 4, blackRecord "data/a.jpg" 5] := by
  simp [collectorLoop, collectorStep, findMinDistanceIdx, blackRecord,
    black_distance_to_query]

theorem query_run_distances :
    distancesTo (blackRecord "q.jpg" 6)
        [blackRecord "data/a.jpg" 5, blackRecord "data/b.jpg" 1, blackRecord "data/c.jpg" 2,
         blackRecord "data/d.jpg" 3, blackRecord "data/e.jpg" 4, blackRecord "data/f.jpg" 6]
      = [15, 3, 6, 9, 12, 18] := by
  simp [distancesTo, blackRecord, black_distance_to_query]

theorem collectorStep_length (q : Histo) (sims : List Histo) (h : Histo) :
    (collectorStep q sims h).length = if sims.length < 5 then sims.length + 1 else sims.length := by
  unfold collectorStep
  by_cases hlt : sims.length < 5
  · simp [hlt]
  · simp only [hlt, if_false]
    split_ifs <;> simp

theorem collector_fold_length (q : Histo) (cands sims : List Histo) :
    (cands.foldl (collectorStep q) sims).length
      = if sims.length < 5 then Min.min (sims.length + cands.length) 5 else sims.length := by
  induction cands generalizing sims with
  | nil =>
    simp only [List.foldl_nil, List.length_nil, add_zero]
    split_ifs with h
    · exact (min_eq_left (le_of_lt h)).symm
    · rfl
  | cons c cs ih =>
    rw [List.foldl_cons, ih, collectorStep_length]
    simp only [List.length_cons]
    by_cases hlt : sims.length < 5
    · simp only [hlt, if_true]
      split_ifs with h5
      · congr 1; omega
      · have : sims.length + 1 = 5 := by omega
        rw [this]
        exact (min_eq_right (by omega)).symm
    · simp only [hlt, if_false]

/-- Claim C1, failing input: the query `q.jpg` is a 3 × 2 all-black image and the
six candidates are all-black images of 5, 1, 2, 3, 4 and 6 pixels, received in
that order after the query; their distances to the query are 15, 3, 6, 9, 12,
18. The loop ends with the records of distances 18, 3, 6, 9, 12: the sixth
record replaced the first incumbent (distance 15) instead of the weakest
(distance 3), so the kept distances are not the five largest 18, 15, 12, 9, 6. -/
theorem collector_drops_second_best :
    computeHistogram decodeBlack "q.jpg" 255 = .ok (blackRecord "q.jpg" 6)
    ∧ ["data/a.jpg", "data/b.jpg", "data/c.jpg", "data/d.jpg", "data/e.jpg",
        "data/f.jpg"].map (fun path => computeHistogram decodeBlack path 255)
      = [.ok (blackRecord "data/a.jpg" 5), .ok (blackRecord "data/b.jpg" 1),
         .ok (blackRecord "data/c.jpg" 2), .ok (blackRecord "data/d.jpg" 3),
         .ok (blackRecord "data/e.jpg" 4), .ok (blackRecord "data/f.jpg" 6)]
    ∧ distancesTo (blackRecord "q.jpg" 6)
        [blackRecord "data/a.jpg" 5, blackRecord "data/b.jpg" 1, blackRecord "data/c.jpg" 2,
         blackRecord "data/d.jpg" 3, blackRecord "data/e.jpg" 4, blackRecord "data/f.jpg" 6]
      = [15, 3, 6, 9, 12, 18]
    ∧ collectorLoop (blackRecord "q.jpg" 6)
        [blackRecord "data/a.jpg" 5, blackRecord "data/b.jpg" 1, blackRecord "data/c.jpg" 2,
         blackRecord "data/d.jpg" 3, blackRecord "data/e.jpg" 4, blackRecord "data/f.jpg" 6]
      = [blackRecord "data/f.jpg" 6, blackRecord "data/b.jpg" 1, blackRecord "data/c.jpg" 2,
         blackRecord "data/d.jpg" 3, blackRecord "data/e.jpg" 4]
    ∧ distancesTo (blackRecord "q.jpg" 6)
        (collectorLoop (blackRecord "q.jpg" 6)
          [blackRecord "data/a.jpg" 5, blackRecord "data/b.jpg" 1, blackRecord "data/c.jpg" 2,
           blackRecord "data/d.jpg" 3, blackRecord "data/e.jpg" 4, blackRecord "data/f.jpg" 6])
      = [18, 3, 6, 9, 12]
    ∧ fiveLargest [15, 3, 6, 9, 12, 18] = [18, 15, 12, 9, 6]
    ∧ ¬ List.Perm [(18 : Int), 3, 6, 9, 12] (fiveLargest [15, 3, 6, 9, 12, 18]) := by
  refine ⟨black_dataset_histograms.1, black_dataset_histograms.2, query_run_distances,
    query_run_arrival_order, ?_, by decide, by decide⟩
  rw [query_run_arrival_order]
  simp [distancesTo, blackRecord, black_distance_to_query]

/-- Claim C9: after any sequence of `n` candidate records has been processed by
the Collector loop, `similarImages` holds exactly `min(n, 5)` records. -/
theorem collector_holds_min_n_five (queryHistogram : Histo) (candidates : List Histo) :
    (collectorLoop queryHistogram candidates).length = Min.min candidates.length 5 := by
  unfold collectorLoop
  rw [collector_fold_length]
  simp

/-- Claim C10, failing input: six all-black candidates of 5, 1, 2, 3, 4 and 6
pixels, with pairwise distinct distances 15, 3, 6, 9, 12, 18 to the 3 × 2
all-black query, delivered in two orders. Arrival order `a, b, c, d, e, f`
keeps `data/b.jpg` (distance 3) and drops `data/a.jpg` (distance 15); arrival
order `b, c, d, e, a, f` keeps `data/a.jpg` and drops `data/b.jpg`. -/
theorem collector_depends_on_arrival_order :
    List.Perm
        [blackRecord "data/a.jpg" 5, blackRecord "data/b.jpg" 1, blackRecord "data/c.jpg" 2,
         blackRecord "data/d.jpg" 3, blackRecord "data/e.jpg" 4, blackRecord "data/f.jpg" 6]
        [blackRecord "data/b.jpg" 1, blackRecord "data/c.jpg" 2, blackRecord "data/d.jpg" 3,
         blackRecord "data/e.jpg" 4, blackRecord "data/a.jpg" 5, blackRecord "data/f.jpg" 6]
    ∧ (distancesTo (blackRecord "q.jpg" 6)
        [blackRecord "data/a.jpg" 5, blackRecord "data/b.jpg" 1, blackRecord "data/c.jpg" 2,
         blackRecord "data/d.jpg" 3, blackRecord "data/e.jpg" 4,
         blackRecord "data/f.jpg" 6]).Nodup
    ∧ blackRecord "data/b.jpg" 1 ∈ collectorLoop (blackRecord "q.jpg" 6)
        [blackRecord "data/a.jpg" 5, blackRecord "data/b.jpg" 1, blackRecord "data/c.jpg" 2,
         blackRecord "data/d.jpg" 3, blackRecord "data/e.jpg" 4, blackRecord "data/f.jpg" 6]
    ∧ blackRecord "data/b.jpg" 1 ∉ collectorLoop (blackRecord "q.jpg" 6)
        [blackRecord "data/b.jpg" 1, blackRecord "data/c.jpg" 2, blackRecord "data/d.jpg" 3,
         blackRecord "data/e.jpg" 4, blackRecord "data/a.jpg" 5, blackRecord "data/f.jpg" 6] := by
  refine ⟨?_, ?_, ?_, ?_⟩
  · exact (@List.perm_middle Histo (blackRecord "data/a.jpg" 5)
      [blackRecord "data/b.jpg" 1, blackRecord "data/c.jpg" 2, blackRecord "data/d.jpg" 3,
       blackRecord "data/e.jpg" 4] [blackRecord "data/f.jpg" 6]).symm
  · rw [query_run_distances]
    decide
  · rw [query_run_arrival_order]
    simp
  · rw [query_run_other_order]
    simp [blackRecord]

/-! ## Collector loop: short runs, one step, and the strongest record -/

theorem collector_fold_append (q : Histo) (cands sims : List Histo)
    (hlen : sims.length + cands.length ≤ 5) :
    cands.foldl (collectorStep q) sims = sims ++ cands := by
  induction cands generalizing sims with
  | nil => simp
  | cons c cs ih =>
    simp only [List.length_cons] at hlen
    have hstep : collectorStep q sims c = sims ++ [c] := by
      unfold collectorStep
      rw [if_pos (by omega)]
    have hlen2 : (sims ++ [c]).length + cs.length ≤ 5 := by
      simp only [List.length_append, List.length_cons, List.length_nil]
      omega
    rw [List.foldl_cons, hstep, ih (sims ++ [c]) hlen2]
    simp

/-- Claim C11: when at most 5 candidate records are delivered, `similarImages`
ends equal to the delivered sequence, in arrival order, nothing dropped or
replaced. -/
theorem collector_keeps_short_run (queryHistogram : Histo) (candidates : List Histo)
    (hn : candidates.length ≤ 5) :
    collectorLoop queryHistogram candidates = candidates := by
  unfold collectorLoop
  rw [collector_fold_append queryHistogram candidates [] (by simpa using hn)]
  rfl

/-- Claim C11, witness: three delivered records are kept as delivered. -/
theorem collector_keeps_short_run_witness :
    collectorLoop (blackRecord "q.jpg" 6)
        [blackRecord "data/a.jpg" 5, blackRecord "data/b.jpg" 1, blackRecord "data/c.jpg" 2]
      = [blackRecord "data/a.jpg" 5, blackRecord "data/b.jpg" 1, blackRecord "data/c.jpg" 2] :=
  collector_keeps_short_run (blackRecord "q.jpg" 6)
    [blackRecord "data/a.jpg" 5, blackRecord "data/b.jpg" 1, blackRecord "data/c.jpg" 2]
    (by decide)

/-- Claim C16, failing input: the five incumbents have distances 15, 3, 6, 9, 12
to the query and the incoming record has distance 18. The inner loop leaves
`minDistanceIdx = 0`, and the step overwrites the incumbent of distance 15,
although the smallest incumbent distance is 3 (position 1). -/
theorem collector_step_replaces_first_incumbent :
    distancesTo (blackRecord "q.jpg" 6)
        [blackRecord "data/a.jpg" 5, blackRecord "data/b.jpg" 1, blackRecord "data/c.jpg" 2,
         blackRecord "data/d.jpg" 3, blackRecord "data/e.jpg" 4]
      = [15, 3, 6, 9, 12]
    ∧ distanceTo (blackRecord "q.jpg" 6) (blackRecord "data/f.jpg" 6) = 18
    ∧ findMinDistanceIdx (blackRecord "q.jpg" 6)
        [blackRecord "data/a.jpg" 5, blackRecord "data/b.jpg" 1, blackRecord "data/c.jpg" 2,
         blackRecord "data/d.jpg" 3, blackRecord "data/e.jpg" 4]
        (blackRecord "data/f.jpg" 6) = 0
    ∧ collectorStep (blackRecord "q.jpg" 6)
        [blackRecord "data/a.jpg" 5, blackRecord "data/b.jpg" 1, blackRecord "data/c.jpg" 2,
         blackRecord "data/d.jpg" 3, blackRecord "data/e.jpg" 4]
        (blackRecord "data/f.jpg" 6)
      = [blackRecord "data/f.jpg" 6, blackRecord "data/b.jpg" 1, blackRecord "data/c.jpg" 2,
         blackRecord "data/d.jpg" 3, blackRecord "data/e.jpg" 4] := by
  refine ⟨?_, ?_, ?_, ?_⟩
  · simp [distancesTo, blackRecord, black_distance_to_query]
  · simp [distanceTo, blackRecord, black_distance_to_query]
  · simp [findMinDistanceIdx, blackRecord, black_distance_to_query]
  · simp [collectorStep, findMinDistanceIdx, blackRecord, black_distance_to_query]

theorem getD_set_of_lt {α : Type} (l : List α) (k i : Nat) (hk : k < l.length) (v d : α) :
    (l.set k v).getD i d = if i = k then v else l.getD i d := by
  induction l generalizing k i with
  | nil => simp at hk
  | cons x xs ih =>
    cases k with
    | zero =>
      cases i with
      | zero => simp
      | succ i => simp
    | succ j =>
      cases i with
      | zero => simp
      | succ i =>
        simp only [List.set_cons_succ, List.getD_cons_succ, Nat.add_right_cancel_iff]
        exact ih j i (by simpa using hk)

theorem findMinDistanceIdx_lt (q : Histo) (sims : List Histo) (h : Histo) :
    findMinDistanceIdx q sims h < 5 := by
  unfold findMinDistanceIdx
  simp only [List.foldl_cons, List.foldl_nil]
  split_ifs <;> omega

/-- One step of the loop, seen position by position: a position keeps its record
or receives the incoming one, and the latter only over a strictly smaller
distance. -/
theorem collectorStep_position (q : Histo) (sims : List Histo) (h : Histo) (i : Nat)
    (hi : i < sims.length) :
    (collectorStep q sims h).getD i ⟨"", []⟩ = sims.getD i ⟨"", []⟩
      ∨ ((collectorStep q sims h).getD i ⟨"", []⟩ = h
          ∧ distanceTo q (sims.getD i ⟨"", []⟩) < distanceTo q h) := by
  unfold collectorStep
  by_cases hlt : sims.length < 5
  · rw [if_pos hlt]
    exact Or.inl (List.getD_append _ _ _ _ hi)
  · rw [if_neg hlt]
    have hidx := findMinDistanceIdx_lt q sims h
    simp only []
    split_ifs with hgt
    · rw [getD_set_of_lt _ _ _ (by omega)]
      by_cases hik : i = findMinDistanceIdx q sims h
      · rw [if_pos hik]
        refine Or.inr ⟨rfl, ?_⟩
        rw [hik]
        exact hgt
      · rw [if_neg hik]
        exact Or.inl rfl
    · exact Or.inl rfl

theorem collectorStep_length_le (q : Histo) (sims : List Histo) (h : Histo) :
    sims.length ≤ (collectorStep q sims h).length := by
  rw [collectorStep_length]
  split_ifs <;> omega

theorem collectorStep_position_le (q : Histo) (sims : List Histo) (h : Histo) (i : Nat)
    (hi : i < sims.length) :
    distanceTo q (sims.getD i ⟨"", []⟩)
      ≤ distanceTo q ((collectorStep q sims h).getD i ⟨"", []⟩) := by
  rcases collectorStep_position q sims h i hi with he | ⟨he, hlt⟩
  · rw [he]
  · rw [he]
    exact le_of_lt hlt

/-- Over any further run of the loop no position loses distance. -/
theorem collector_fold_position_le (q : Histo) (cands sims : List Histo) (i : Nat)
    (hi : i < sims.length) :
    i < (cands.foldl (collectorStep q) sims).length
      ∧ distanceTo q (sims.getD i ⟨"", []⟩)
        ≤ distanceTo q ((cands.foldl (collectorStep q) sims).getD i ⟨"", []⟩) := by
  induction cands generalizing sims with
  | nil => exact ⟨hi, le_refl _⟩
  | cons c cs ih =>
    have hi2 : i < (collectorStep q sims c).length :=
      lt_of_lt_of_le hi (collectorStep_length_le q sims c)
    obtain ⟨h1, h2⟩ := ih (collectorStep q sims c) hi2
    exact ⟨h1, le_trans (collectorStep_position_le q sims c i hi) h2⟩

/-- One step keeps the list inside the records seen and keeps every record seen
dominated by a record of the list. -/
theorem collectorStep_covers (q : Histo) (sims seen : List Histo) (h : Histo)
    (hsub : ∀ r ∈ sims, r ∈ seen)
    (hcov : ∀ c ∈ seen, ∃ r ∈ sims, distanceTo q c ≤ distanceTo q r) :
    (∀ r ∈ collectorStep q sims h, r ∈ seen ++ [h])
      ∧ (∀ c ∈ seen ++ [h], ∃ r ∈ collectorStep q sims h,
          distanceTo q c ≤ distanceTo q r) := by
  unfold collectorStep
  by_cases hlt : sims.length < 5
  · rw [if_pos hlt]
    constructor
    · intro r hr
      rcases List.mem_append.mp hr with hr | hr
      · exact List.mem_append_left _ (hsub r hr)
      · exact List.mem_append_right _ hr
    · intro c hc
      rcases List.mem_append.mp hc with hc | hc
      · obtain ⟨r, hr, hle⟩ := hcov c hc
        exact ⟨r, List.mem_append_left _ hr, hle⟩
      · exact ⟨c, List.mem_append_right _ hc, le_refl _⟩
  · rw [if_neg hlt]
    have hidx := findMinDistanceIdx_lt q sims h
    have hk : findMinDistanceIdx q sims h < sims.length := by omega
    simp only []
    split_ifs with hgt
    · constructor
      · intro r hr
        rcases List.mem_or_eq_of_mem_set hr with hr | hr
        · exact List.mem_append_left _ (hsub r hr)
        · exact List.mem_append_right _ (by rw [hr]; exact List.mem_singleton_self h)
      · intro c hc
        have hmem : h ∈ sims.set (findMinDistanceIdx q sims h) h := List.mem_set _ _ hk _
        rcases List.mem_append.mp hc with hc | hc
        · obtain ⟨r, hr, hle⟩ := hcov c hc
          obtain ⟨j, hj, rfl⟩ := List.getElem_of_mem hr
          by_cases hjk : findMinDistanceIdx q sims h = j
          · refine ⟨h, hmem, le_trans hle (le_of_lt ?_)⟩
            rw [List.getD_eq_getElem _ _ hk] at hgt
            subst hjk
            exact hgt
          · refine ⟨sims[j], ?_, hle⟩
            have hj2 : j < (sims.set (findMinDistanceIdx q sims h) h).length := by
              rw [List.length_set]; exact hj
            have he : (sims.set (findMinDistanceIdx q sims h) h)[j] = sims[j] :=
              List.getElem_set_ne hjk hj2
            rw [← he]
            exact List.getElem_mem hj2
        · rw [List.mem_singleton.mp hc]
          exact ⟨h, hmem, le_refl _⟩
    · constructor
      · intro r hr
        exact List.mem_append_left _ (hsub r hr)
      · intro c hc
        rcases List.mem_append.mp hc with hc | hc
        · exact hcov c hc
        · rw [List.mem_singleton.mp hc]
          refine ⟨sims[findMinDistanceIdx q sims h], List.getElem_mem hk, ?_⟩
          rw [List.getD_eq_getElem _ _ hk] at hgt
          exact not_lt.mp hgt

theorem collector_fold_covers (q : Histo) (cands sims seen : List Histo)
    (hsub : ∀ r ∈ sims, r ∈ seen)
    (hcov : ∀ c ∈ seen, ∃ r ∈ sims, distanceTo q c ≤ distanceTo q r) :
    (∀ r ∈ cands.foldl (collectorStep q) sims, r ∈ seen ++ cands)
      ∧ (∀ c ∈ seen ++ cands, ∃ r ∈ cands.foldl (collectorStep q) sims,
          distanceTo q c ≤ distanceTo q r) := by
  induction cands generalizing sims seen with
  | nil => simpa using ⟨hsub, hcov⟩
  | cons c cs ih =>
    obtain ⟨h1, h2⟩ := collectorStep_covers q sims seen c hsub hcov
    have h3 := ih (collectorStep q sims c) (seen ++ [c]) h1 h2
    simpa using h3

theorem exists_strongest (q : Histo) (cands : List Histo) (hne : cands ≠ []) :
    ∃ m ∈ cands, ∀ c ∈ cands, distanceTo q c ≤ distanceTo q m := by
  induction cands with
  | nil => exact absurd rfl hne
  | cons x xs ih =>
    by_cases hxs : xs = []
    · subst hxs
      exact ⟨x, by simp, fun c hc => by simp at hc; rw [hc]⟩
    · obtain ⟨m, hm, hmax⟩ := ih hxs
      by_cases hle : distanceTo q x ≤ distanceTo q m
      · refine ⟨m, List.mem_cons_of_mem _ hm, fun c hc => ?_⟩
        rcases List.mem_cons.mp hc with hc | hc
        · rw [hc]; exact hle
        · exact hmax c hc
      · refine ⟨x, List.mem_cons_self _ _, fun c hc => ?_⟩
        rcases List.mem_cons.mp hc with hc | hc
        · rw [hc]
        · exact le_trans (hmax c hc) (le_of_lt (not_le.mp hle))

/-- Claim C20: for every query and every non-empty sequence of candidates, the
final `similarImages` contains a processed record whose distance to the query is
the maximum over all processed candidates; in one step a position either keeps
its record or receives the incoming record over a strictly smaller distance; so
over any continuation of the run the distance held at a position never
decreases. -/
theorem collector_keeps_strongest (queryHistogram : Histo) (candidates : List Histo)
    (hne : candidates ≠ []) :
    (∃ r ∈ collectorLoop queryHistogram candidates, r ∈ candidates
        ∧ ∀ c ∈ candidates, distanceTo queryHistogram c ≤ distanceTo queryHistogram r)
      ∧ (∀ (similarImages : List Histo) (histogram : Histo) (i : Nat),
          i < similarImages.length →
          (collectorStep queryHistogram similarImages histogram).getD i ⟨"", []⟩
              = similarImages.getD i ⟨"", []⟩
            ∨ ((collectorStep queryHistogram similarImages histogram).getD i ⟨"", []⟩
                = histogram
              ∧ distanceTo queryHistogram (similarImages.getD i ⟨"", []⟩)
                < distanceTo queryHistogram histogram))
      ∧ (∀ (later : List Histo) (i : Nat),
          i < (collectorLoop queryHistogram candidates).length →
          distanceTo queryHistogram
              ((collectorLoop queryHistogram candidates).getD i ⟨"", []⟩)
            ≤ distanceTo queryHistogram
              ((collectorLoop queryHistogram (candidates ++ later)).getD i ⟨"", []⟩)) := by
  refine ⟨?_, collectorStep_position queryHistogram, ?_⟩
  · obtain ⟨h1, h2⟩ := collector_fold_covers queryHistogram candidates [] []
      (fun r hr => by simp at hr) (fun c hc => by simp at hc)
    simp only [List.nil_append] at h1 h2
    obtain ⟨m, hm, hmax⟩ := exists_strongest queryHistogram candidates hne
    obtain ⟨r, hr, hle⟩ := h2 m hm
    exact ⟨r, hr, h1 r hr, fun c hc => le_trans (hmax c hc) hle⟩
  · intro later i hi
    unfold collectorLoop at hi ⊢
    rw [List.foldl_append]
    exact (collector_fold_position_le queryHistogram later _ i hi).2

/-- Claim C20, witness: on the six all-black candidates (distances 15, 3, 6, 9,
12, 18) the final list holds a record of the maximal distance. -/
theorem collector_keeps_strongest_witness :
    ∃ r ∈ collectorLoop (blackRecord "q.jpg" 6)
        [blackRecord "data/a.jpg" 5, blackRecord "data/b.jpg" 1, blackRecord "data/c.jpg" 2,
         blackRecord "data/d.jpg" 3, blackRecord "data/e.jpg" 4, blackRecord "data/f.jpg" 6],
      r ∈ [blackRecord "data/a.jpg" 5, blackRecord "data/b.jpg" 1, blackRecord "data/c.jpg" 2,
         blackRecord "data/d.jpg" 3, blackRecord "data/e.jpg" 4, blackRecord "data/f.jpg" 6]
      ∧ ∀ c ∈ [blackRecord "data/a.jpg" 5, blackRecord "data/b.jpg" 1,
          blackRecord "data/c.jpg" 2, blackRecord "data/d.jpg" 3, blackRecord "data/e.jpg" 4,
          blackRecord "data/f.jpg" 6],
        distanceTo (blackRecord "q.jpg" 6) c ≤ distanceTo (blackRecord "q.jpg" 6) r :=
  (collector_keeps_strongest (blackRecord "q.jpg" 6)
    [blackRecord "data/a.jpg" 5, blackRecord "data/b.jpg" 1, blackRecord "data/c.jpg" 2,
     blackRecord "data/d.jpg" 3, blackRecord "data/e.jpg" 4, blackRecord "data/f.jpg" 6]
    (by simp)).1

/-! ## Histogram builder with a depth below 255 -/

theorem incrementBin_ok {h h2 : List Int} {k : Nat} (e : incrementBin h k = .ok h2) :
    k < h.length ∧ h2.length = h.length := by
  unfold incrementBin at e
  split_ifs at e with hk
  cases e
  exact ⟨hk, List.length_set _ _ _⟩

theorem incrementBin_error {h : List Int} {k : Nat} {f : Fault}
    (e : incrementBin h k = .error f) : f = .crash := by
  unfold incrementBin at e
  split_ifs at e with hk
  cases e
  rfl

theorem countPixel_ok {h h2 : List Int} {c : RGBA} (e : countPixel h c = .ok h2) :
    (c.red >>> 8 < h.length ∧ c.green >>> 8 < h.length ∧ c.blue >>> 8 < h.length)
      ∧ h2.length = h.length := by
  unfold countPixel at e
  cases h1 : incrementBin h (c.red >>> 8) with
  | error f =>
    simp only [h1, bind, Except.bind] at e
    cases e
  | ok a =>
    cases h2e : incrementBin a (c.green >>> 8) with
    | error f =>
      simp only [h1, h2e, bind, Except.bind] at e
      cases e
    | ok b =>
      simp only [h1, h2e, bind, Except.bind] at e
      obtain ⟨r1, l1⟩ := incrementBin_ok h1
      obtain ⟨r2, l2⟩ := incrementBin_ok h2e
      obtain ⟨r3, l3⟩ := incrementBin_ok e
      exact ⟨⟨r1, by omega, by omega⟩, by omega⟩

theorem countPixel_error {h : List Int} {c : RGBA} {f : Fault}
    (e : countPixel h c = .error f) : f = .crash := by
  unfold countPixel at e
  cases h1 : incrementBin h (c.red >>> 8) with
  | error g =>
    simp only [h1, bind, Except.bind] at e
    cases e
    exact incrementBin_error h1
  | ok a =>
    cases h2e : incrementBin a (c.green >>> 8) with
    | error g =>
      simp only [h1, h2e, bind, Except.bind] at e
      cases e
      exact incrementBin_error h2e
    | ok b =>
      simp only [h1, h2e, bind, Except.bind] at e
      exact incrementBin_error e

/-- A row scan that ends normally met only in-range samples; one that fails
fails by a run-time crash. -/
theorem row_scan_result (grid : Nat → Nat → RGBA) (y : Nat) (xs : List Nat) (h : List Int) :
    (∀ h2, xs.foldlM (fun histogram x => countPixel histogram (grid x y)) h = .ok h2 →
        h2.length = h.length
          ∧ ∀ x ∈ xs, (grid x y).red >>> 8 < h.length ∧ (grid x y).green >>> 8 < h.length
            ∧ (grid x y).blue >>> 8 < h.length)
      ∧ (∀ f, xs.foldlM (fun histogram x => countPixel histogram (grid x y)) h = .error f →
        f = .crash) := by
  induction xs generalizing h with
  | nil =>
    constructor
    · intro h2 e
      cases e
      exact ⟨rfl, fun x hx => by simp at hx⟩
    · intro f e
      cases e
  | cons x xs ih =>
    cases hc : countPixel h (grid x y) with
    | error g =>
      constructor
      · intro h2 e
        simp only [List.foldlM_cons, hc, bind, Except.bind] at e
        cases e
      · intro f e
        simp only [List.foldlM_cons, hc, bind, Except.bind] at e
        cases e
        exact countPixel_error hc
    | ok a =>
      obtain ⟨hr, hl⟩ := countPixel_ok hc
      obtain ⟨ih1, ih2⟩ := ih a
      constructor
      · intro h2 e
        simp only [List.foldlM_cons, hc, bind, Except.bind] at e
        obtain ⟨l2, r2⟩ := ih1 h2 e
        refine ⟨by omega, fun z hz => ?_⟩
        rcases List.mem_cons.mp hz with hz | hz
        · rw [hz]; exact hr
        · have := r2 z hz
          rw [hl] at this
          exact this
      · intro f e
        simp only [List.foldlM_cons, hc, bind, Except.bind] at e
        exact ih2 f e

/-- The same for the scan of all rows. -/
theorem rows_scan_result (grid : Nat → Nat → RGBA) (w : Nat) (ys : List Nat) (h : List Int) :
    (∀ h2, ys.foldlM (fun histogram y => (List.range w).foldlM
          (fun histogram x => countPixel histogram (grid x y)) histogram) h = .ok h2 →
        h2.length = h.length
          ∧ ∀ y ∈ ys, ∀ x, x < w → (grid x y).red >>> 8 < h.length
            ∧ (grid x y).green >>> 8 < h.length ∧ (grid x y).blue >>> 8 < h.length)
      ∧ (∀ f, ys.foldlM (fun histogram y => (List.range w).foldlM
          (fun histogram x => countPixel histogram (grid x y)) histogram) h = .error f →
        f = .crash) := by
  induction ys generalizing h with
  | nil =>
    constructor
    · intro h2 e
      cases e
      exact ⟨rfl, fun y hy => by simp at hy⟩
    · intro f e
      cases e
  | cons y ys ih =>
    obtain ⟨row1, row2⟩ := row_scan_result grid y (List.range w) h
    cases hc : (List.range w).foldlM (fun histogram x => countPixel histogram (grid x y)) h with
    | error g =>
      constructor
      · intro h2 e
        simp only [List.foldlM_cons, hc, bind, Except.bind] at e
        cases e
      · intro f e
        simp only [List.foldlM_cons, hc, bind, Except.bind] at e
        cases e
        exact row2 g hc
    | ok a =>
      obtain ⟨hl, hr⟩ := row1 a hc
      obtain ⟨ih1, ih2⟩ := ih a
      constructor
      · intro h2 e
        simp only [List.foldlM_cons, hc, bind, Except.bind] at e
        obtain ⟨l2, r2⟩ := ih1 h2 e
        refine ⟨by omega, fun z hz x hx => ?_⟩
        rcases List.mem_cons.mp hz with hz | hz
        · rw [hz]; exact hr x (List.mem_range.mpr hx)
        · have := r2 z hz x hx
          rw [hl] at this
          exact this
      · intro f e
        simp only [List.foldlM_cons, hc, bind, Except.bind] at e
        exact ih2 f e

/-- With `depth = D`, a decoded grid holding a sample whose quantised value
exceeds `D` makes `computeHistogram` stop with an index-out-of-range crash. -/
theorem computeHistogram_crash (decode : String → Except String Image)
    (imagePath : String) (grid : Nat → Nat → RGBA) (W H D : Nat)
    (hdec : decode imagePath = .ok ⟨(W : Int), (H : Int), grid⟩)
    (hD : (D : Int) + 1 ≤ maxInt)
    (hout : ∃ x y, x < W ∧ y < H ∧ (D < (grid x y).red >>> 8 ∨ D < (grid x y).green >>> 8
      ∨ D < (grid x y).blue >>> 8)) :
    computeHistogram decode imagePath (D : Int) = .error .crash := by
  have hw : wrapInt ((D : Int) + 1) = ((D + 1 : Nat) : Int) := by
    rw [wrapInt_of_inRange _ (by unfold minInt; omega) hD]
    push_cast
    rfl
  obtain ⟨r1, r2⟩ := rows_scan_result grid W (List.range H) (List.replicate (D + 1) 0)
  unfold computeHistogram
  rw [hdec]
  simp only [hw]
  rw [if_neg (by omega), Int.toNat_natCast]
  unfold scanImage scanRow
  simp only [Int.toNat_natCast]
  cases hs : (List.range H).foldlM (fun histogram y => (List.range W).foldlM
      (fun histogram x => countPixel histogram (grid x y)) histogram)
      (List.replicate (D + 1) 0) with
  | error f =>
    simp only []
    rw [r2 f hs]
  | ok a =>
    exfalso
    obtain ⟨x, y, hx, hy, hbad⟩ := hout
    obtain ⟨_, hr⟩ := r1 a hs
    have := hr y (List.mem_range.mpr hy) x hx
    rw [List.length_replicate] at this
    omega

/-- Claim C18, counterexample: with `depth = 100` (so `0 < D < 255`) and the
2 × 2 all-white image, whose samples `65535` lie in `[0, 65535]`,
`computeHistogram` does not succeed: the first `histogram[255]++` is outside the
101 bins and the call stops with a run-time crash. Nothing is clamped to bin
100. -/
theorem computeHistogram_crashes_below_255 :
    (0 : Int) < 100 ∧ (100 : Int) < 255
      ∧ (whitePixel.red ≤ 65535 ∧ whitePixel.green ≤ 65535 ∧ whitePixel.blue ≤ 65535)
      ∧ decodeWhite "white.jpg" = .ok ⟨2, 2, fun _ _ => whitePixel⟩
      ∧ computeHistogram decodeWhite "white.jpg" 100 = .error .crash := by
  refine ⟨by decide, by decide, by decide, rfl, ?_⟩
  exact computeHistogram_crash decodeWhite "white.jpg" (fun _ _ => whitePixel) 2 2 100 rfl
    (by decide) ⟨0, 0, by decide, by decide, Or.inl (by decide)⟩

/-- Claim C18, amended: for every depth `D < 255` and every decoded `W × H` grid
(with `3 · W · H` within the Go `int` range): when every red, green and blue
sample has a quantised value `v >> 8` of at most `D`, `computeHistogram` succeeds
and returns a histogram of length `D + 1` whose bin `i` counts the samples of
quantised value `i` and whose sum is `3 · W · H`; when some sample has a
quantised value above `D`, `computeHistogram` stops with an index-out-of-range
crash instead of counting that sample in bin `D`. -/
theorem computeHistogram_small_depth (decode : String → Except String Image)
    (imagePath : String) (grid : Nat → Nat → RGBA) (W H D : Nat) (hD : D < 255)
    (hdec : decode imagePath = .ok ⟨(W : Int), (H : Int), grid⟩)
    (hfit : (3 * W * H : Int) ≤ maxInt) :
    ((∀ x y, x < W → y < H → (grid x y).red >>> 8 ≤ D ∧ (grid x y).green >>> 8 ≤ D
        ∧ (grid x y).blue >>> 8 ≤ D) →
      ∃ bins, computeHistogram decode imagePath (D : Int) = .ok ⟨imagePath, bins⟩
        ∧ bins.length = D + 1
        ∧ (∀ i, i < D + 1 → bins.getD i 0 = (sampleCount grid W H i : Int))
        ∧ bins.sum = 3 * (W : Int) * (H : Int))
      ∧ ((∃ x y, x < W ∧ y < H ∧ (D < (grid x y).red >>> 8 ∨ D < (grid x y).green >>> 8
          ∨ D < (grid x y).blue >>> 8)) →
        computeHistogram decode imagePath (D : Int) = .error .crash) := by
  have hD1 : (D : Int) + 1 ≤ maxInt := by unfold maxInt; omega
  constructor
  · intro hin
    obtain ⟨bins, e, t⟩ := computeHistogram_tallies decode imagePath grid W H D hdec hD1
      hin hfit
    refine ⟨bins, e, t.1, t.2.1, ?_⟩
    rw [t.2.2]
    push_cast
    rfl
  · exact computeHistogram_crash decode imagePath grid W H D hdec hD1

/-- Claim C18, witness: with `depth = 100` the 3 × 2 all-black image gives 101
bins adding up to 18, and the 2 × 2 all-white image makes the call crash. -/
theorem computeHistogram_small_depth_witness :
    (∃ bins, computeHistogram decodeBlack "q.jpg" 100 = .ok ⟨"q.jpg", bins⟩
        ∧ bins.length = 101 ∧ bins.sum = 18)
      ∧ computeHistogram decodeWhite "white.jpg" 100 = .error .crash := by
  constructor
  · obtain ⟨bins, e, hl, _, hs⟩ := (computeHistogram_small_depth decodeBlack "q.jpg"
      (fun _ _ => blackPixel) 3 2 100 (by decide) rfl (by decide)).1
      (fun _ _ _ _ => (by decide : blackPixel.red >>> 8 ≤ 100 ∧ blackPixel.green >>> 8 ≤ 100
        ∧ blackPixel.blue >>> 8 ≤ 100))
    exact ⟨bins, e, hl, by rw [hs]; decide⟩
  · exact (computeHistogram_small_depth decodeWhite "white.jpg"
      (fun _ _ => whitePixel) 2 2 100 (by decide) rfl (by decide)).2
      ⟨0, 0, by decide, by decide, Or.inl (by decide)⟩

/-! ## Partitioning loop -/

theorem batchSizeOf_pos (jpgFiles : List String) (hne : 0 < jpgFiles.length) :
    0 < batchSizeOf jpgFiles := by
  unfold batchSizeOf
  omega

theorem batchSizeOf_bounds (jpgFiles : List String) :
    jpgFiles.length ≤ 5 * batchSizeOf jpgFiles
      ∧ 5 * batchSizeOf jpgFiles < jpgFiles.length + 5 := by
  unfold batchSizeOf
  omega

/-- The loop started at `i` with enough fuel ends, and its index pairs are
`(i + k·bs, min(i + (k+1)·bs, len))` for `k = 0, 1, ...`, as many as needed to
reach `len`; the slices they cut out of `jpgFiles` concatenate to
`jpgFiles[i:]`. -/
theorem partitionLoop_spec (jpgFiles : List String) (bs : Nat) (hbs : 0 < bs) :
    ∀ (fuel i : Nat), jpgFiles.length - i < fuel →
      ∃ rs, partitionLoop jpgFiles.length bs fuel i = some rs
        ∧ (rs.map (sliceOf jpgFiles)).flatten = jpgFiles.drop i
        ∧ (∀ k, k < rs.length →
            rs.getD k (0, 0) = (i + k * bs, Min.min (i + (k + 1) * bs) jpgFiles.length))
        ∧ rs.length * bs < jpgFiles.length - i + bs
        ∧ jpgFiles.length - i ≤ rs.length * bs := by
  intro fuel
  induction fuel with
  | zero => intro i h; omega
  | succ fuel ih =>
    intro i hfuel
    by_cases hi : i < jpgFiles.length
    · obtain ⟨later, e, hjoin, hform, hup, hlo⟩ := ih (i + bs) (by omega)
      have hend : (if i + bs > jpgFiles.length then jpgFiles.length else i + bs)
          = Min.min (i + bs) jpgFiles.length := by
        split_ifs with h
        · exact (min_eq_right (by omega)).symm
        · exact (min_eq_left (by omega)).symm
      refine ⟨(i, Min.min (i + bs) jpgFiles.length) :: later, ?_, ?_, ?_, ?_, ?_⟩
      · unfold partitionLoop
        rw [if_pos hi, e]
        simp only [hend]
      · simp only [List.map_cons, List.flatten_cons, hjoin, sliceOf]
        by_cases hfit : i + bs ≤ jpgFiles.length
        · rw [min_eq_left hfit, Nat.add_sub_cancel_left, ← List.drop_drop]
          exact List.take_append_drop bs (jpgFiles.drop i)
        · have hd : jpgFiles.drop (i + bs) = [] := List.drop_of_length_le (by omega)
          rw [min_eq_right (by omega), hd, List.append_nil]
          exact List.take_of_length_le (by rw [List.length_drop])
      · intro k hk
        cases k with
        | zero => simp
        | succ j =>
          simp only [List.length_cons, Nat.add_lt_add_iff_right] at hk
          rw [List.getD_cons_succ, hform j hk]
          congr 1
          · ring
          · congr 1
            ring
      · simp only [List.length_cons, Nat.add_mul, Nat.one_mul]
        by_cases hfit : i + bs ≤ jpgFiles.length
        · generalize later.length * bs = t at hup hlo
          omega
        · have hz : later.length = 0 := by
            by_contra hne
            have := Nat.le_mul_of_pos_left bs (Nat.pos_of_ne_zero hne)
            omega
          rw [hz, Nat.zero_mul]
          omega
      · simp only [List.length_cons, Nat.add_mul, Nat.one_mul]
        generalize later.length * bs = t at hup hlo
        omega
    · refine ⟨[], ?_, ?_, ?_, ?_, ?_⟩
      · unfold partitionLoop
        rw [if_neg hi]
      · rw [List.drop_of_length_le (by omega)]
        rfl
      · intro k hk
        simp at hk
      · simp only [List.length_nil, Nat.zero_mul]
        omega
      · simp only [List.length_nil, Nat.zero_mul]
        omega

theorem partitionLoop_more_fuel (len bs : Nat) :
    ∀ (fuel i : Nat) (rs : List (Nat × Nat)), partitionLoop len bs fuel i = some rs →
      ∀ extra, partitionLoop len bs (fuel + extra) i = some rs := by
  intro fuel
  induction fuel with
  | zero =>
    intro i rs e
    unfold partitionLoop at e
    cases e
  | succ fuel ih =>
    intro i rs e extra
    rw [Nat.add_right_comm]
    unfold partitionLoop at e ⊢
    by_cases hi : i < len
    · rw [if_pos hi] at e ⊢
      cases hrec : partitionLoop len bs fuel (i + bs) with
      | none => simp only [hrec] at e; cases e
      | some later =>
        simp only [hrec] at e
        simp only [ih (i + bs) later hrec extra]
        exact e
    · rw [if_neg hi] at e ⊢
      exact e

/-- The partitioning loop of `main` ends for every list of paths, and its
index pairs are the consecutive windows of width `batchSize`. -/
theorem partition_run (jpgFiles : List String) :
    ∃ ranges,
      (∀ fuel, jpgFiles.length < fuel →
        partitionLoop jpgFiles.length (batchSizeOf jpgFiles) fuel 0 = some ranges)
      ∧ (ranges.map (sliceOf jpgFiles)).flatten = jpgFiles
      ∧ (∀ k, k < ranges.length →
          ranges.getD k (0, 0) = (k * batchSizeOf jpgFiles,
            Min.min ((k + 1) * batchSizeOf jpgFiles) jpgFiles.length))
      ∧ (ranges ≠ [] → 0 < batchSizeOf jpgFiles
          ∧ ranges.length * batchSizeOf jpgFiles < jpgFiles.length + batchSizeOf jpgFiles)
      ∧ jpgFiles.length ≤ ranges.length * batchSizeOf jpgFiles := by
  by_cases hz : jpgFiles.length = 0
  · refine ⟨[], ?_, ?_, ?_, ?_, ?_⟩
    · intro fuel hfuel
      obtain ⟨f, rfl⟩ : ∃ f, fuel = f + 1 := ⟨fuel - 1, by omega⟩
      unfold partitionLoop
      rw [if_neg (by omega)]
    · rw [List.length_eq_zero.mp hz]
      rfl
    · intro k hk
      simp at hk
    · intro h
      exact absurd rfl h
    · simp only [List.length_nil, Nat.zero_mul]
      omega
  · have hbs := batchSizeOf_pos jpgFiles (Nat.pos_of_ne_zero hz)
    obtain ⟨rs, e, hjoin, hform, hup, hlo⟩ :=
      partitionLoop_spec jpgFiles (batchSizeOf jpgFiles) hbs (jpgFiles.length + 1) 0 (by omega)
    refine ⟨rs, ?_, ?_, ?_, ?_, ?_⟩
    · intro fuel hfuel
      have := partitionLoop_more_fuel _ _ _ _ _ e (fuel - (jpgFiles.length + 1))
      rw [show jpgFiles.length + 1 + (fuel - (jpgFiles.length + 1)) = fuel by omega] at this
      exact this
    · rw [hjoin]
      rfl
    · intro k hk
      rw [hform k hk, Nat.zero_add, Nat.zero_add]
    · intro _
      exact ⟨hbs, by simpa using hup⟩
    · simpa using hlo

theorem sliceOf_length (jpgFiles : List String) (a b : Nat) (hb : b ≤ jpgFiles.length) :
    (sliceOf jpgFiles (a, b)).length = b - a := by
  unfold sliceOf
  simp only [List.length_take, List.length_drop]
  omega

/-- Arithmetic of the windows `(k·bs, min((k+1)·bs, len))` when `m` of them
reach `len`. -/
theorem window_facts (m bs len k : Nat) (hup : m * bs < len + bs)
    (hlo : len ≤ m * bs) (hk : k < m) :
    k * bs < len
      ∧ (k + 1 < m → (k + 1) * bs < len)
      ∧ (k + 1 = m → len ≤ (k + 1) * bs) := by
  have h1 : (k + 1) * bs ≤ m * bs := Nat.mul_le_mul_right bs hk
  rw [Nat.add_mul, Nat.one_mul] at h1
  refine ⟨by omega, ?_, ?_⟩
  · intro hk2
    have h2 : (k + 2) * bs ≤ m * bs := Nat.mul_le_mul_right bs hk2
    rw [Nat.add_mul] at h2
    rw [Nat.add_mul, Nat.one_mul]
    omega
  · intro hk2
    rw [hk2]
    exact hlo

/-- Claim C19: for every list of candidate paths, the empty list included, the
partitioning loop of `main` ends, and the batches it hands to the goroutines are
the consecutive windows `jpgFiles[k·bs : min((k+1)·bs, len)]` with
`bs = ceil(len / 5)`: each is non-empty, each starts where the previous one ends
(so they are pairwise disjoint and contiguous), the last ends at `len`, every
batch but the last has exactly `bs` paths and the last has between 1 and `bs`,
and their concatenation in launch order is `jpgFiles`. -/
theorem partition_assigns_each_path_once (jpgFiles : List String) :
    ∃ ranges,
      (∀ fuel, jpgFiles.length < fuel →
        partitionLoop jpgFiles.length (batchSizeOf jpgFiles) fuel 0 = some ranges)
      ∧ (ranges.map (sliceOf jpgFiles)).flatten = jpgFiles
      ∧ (∀ k, k < ranges.length →
          ranges.getD k (0, 0) = (k * batchSizeOf jpgFiles,
            Min.min ((k + 1) * batchSizeOf jpgFiles) jpgFiles.length)
          ∧ 1 ≤ (sliceOf jpgFiles (ranges.getD k (0, 0))).length
          ∧ (sliceOf jpgFiles (ranges.getD k (0, 0))).length ≤ batchSizeOf jpgFiles
          ∧ (k + 1 < ranges.length →
              (sliceOf jpgFiles (ranges.getD k (0, 0))).length = batchSizeOf jpgFiles
              ∧ (ranges.getD k (0, 0)).2 = (ranges.getD (k + 1) (0, 0)).1)
          ∧ (k + 1 = ranges.length → (ranges.getD k (0, 0)).2 = jpgFiles.length))
      ∧ (∀ j k, j < k → k < ranges.length →
          (ranges.getD j (0, 0)).2 ≤ (ranges.getD k (0, 0)).1) := by
  obtain ⟨ranges, hrun, hjoin, hform, hup, hlo⟩ := partition_run jpgFiles
  refine ⟨ranges, hrun, hjoin, ?_, ?_⟩
  · intro k hk
    have hne : ranges ≠ [] := fun h => by rw [h] at hk; simp at hk
    obtain ⟨hbs, hup2⟩ := hup hne
    obtain ⟨w1, w2, w3⟩ := window_facts _ _ _ k hup2 hlo hk
    rw [hform k hk, sliceOf_length _ _ _ (min_le_right _ _)]
    have hsucc : (k + 1) * batchSizeOf jpgFiles
        = k * batchSizeOf jpgFiles + batchSizeOf jpgFiles := by
      rw [Nat.add_mul, Nat.one_mul]
    refine ⟨rfl, ?_, ?_, ?_, ?_⟩
    · rw [hsucc]
      omega
    · rw [hsucc]
      omega
    · intro hk2
      have := w2 hk2
      rw [hform (k + 1) hk2]
      rw [hsucc] at this ⊢
      constructor
      · omega
      · show Min.min _ _ = _
        omega
    · intro hk2
      have := w3 hk2
      show Min.min _ _ = _
      omega
  · intro j k hjk hk
    have hne : ranges ≠ [] := fun h => by rw [h] at hk; simp at hk
    obtain ⟨hbs, hup2⟩ := hup hne
    rw [hform j (by omega), hform k hk]
    have h1 : (j + 1) * batchSizeOf jpgFiles ≤ k * batchSizeOf jpgFiles :=
      Nat.mul_le_mul_right _ hjk
    show Min.min _ _ ≤ _
    omega

/-- Claim C19, witness: six paths are handed out as three batches of two, and
the loop run of `main` (fuel `len + 1`) yields exactly these batches. -/
theorem partition_assigns_each_path_once_witness :
    ∃ ranges,
      partitionLoop 6 (batchSizeOf ["data/a.jpg", "data/b.jpg", "data/c.jpg", "data/d.jpg",
          "data/e.jpg", "data/f.jpg"]) 7 0 = some ranges
      ∧ (ranges.map (sliceOf ["data/a.jpg", "data/b.jpg", "data/c.jpg", "data/d.jpg",
          "data/e.jpg", "data/f.jpg"])).flatten
        = ["data/a.jpg", "data/b.jpg", "data/c.jpg", "data/d.jpg", "data/e.jpg",
            "data/f.jpg"] := by
  obtain ⟨ranges, hrun, hjoin, _, _⟩ := partition_assigns_each_path_once
    ["data/a.jpg", "data/b.jpg", "data/c.jpg", "data/d.jpg", "data/e.jpg", "data/f.jpg"]
  exact ⟨ranges, hrun 7 (by decide), hjoin⟩

/-- Claim C14, counterexample: for six candidate paths `batchSize` is 2 and the
loop launches three batches (index pairs `(0,2)`, `(2,4)`, `(4,6)`), not five. -/
theorem partition_of_six_has_three_batches :
    batchSizeOf ["data/a.jpg", "data/b.jpg", "data/c.jpg", "data/d.jpg", "data/e.jpg",
        "data/f.jpg"] = 2
      ∧ partitionLoop 6 2 7 0 = some [(0, 2), (2, 4), (4, 6)]
      ∧ [((0 : Nat), (2 : Nat)), (2, 4), (4, 6)].length ≠ 5
      ∧ [((0 : Nat), (2 : Nat)), (2, 4), (4, 6)].map
          (sliceOf ["data/a.jpg", "data/b.jpg", "data/c.jpg", "data/d.jpg", "data/e.jpg",
            "data/f.jpg"])
        = [["data/a.jpg", "data/b.jpg"], ["data/c.jpg", "data/d.jpg"],
           ["data/e.jpg", "data/f.jpg"]] := by
  decide

/-- Claim C14, amended: for every list of candidate paths the partitioning loop
of `main` ends and launches `ceil(len / batchSize)` contiguous batches, one
goroutine each, with `batchSize = ceil(len / 5)`: that is at most 5 batches (none
for the empty list), each of `batchSize` paths except that the last may be
shorter. -/
theorem partition_batch_count (jpgFiles : List String) :
    ∃ ranges,
      partitionLoop jpgFiles.length (batchSizeOf jpgFiles) (jpgFiles.length + 1) 0
        = some ranges
      ∧ ranges.length = (jpgFiles.length + batchSizeOf jpgFiles - 1) / batchSizeOf jpgFiles
      ∧ ranges.length ≤ 5
      ∧ (jpgFiles = [] → ranges = [])
      ∧ (∀ k, k < ranges.length →
          ranges.getD k (0, 0) = (k * batchSizeOf jpgFiles,
            Min.min ((k + 1) * batchSizeOf jpgFiles) jpgFiles.length)
          ∧ (sliceOf jpgFiles (ranges.getD k (0, 0))).length ≤ batchSizeOf jpgFiles
          ∧ (k + 1 < ranges.length →
              (sliceOf jpgFiles (ranges.getD k (0, 0))).length = batchSizeOf jpgFiles)) := by
  obtain ⟨ranges, hrun, hjoin, hform, hup, hlo⟩ := partition_run jpgFiles
  have hb := batchSizeOf_bounds jpgFiles
  refine ⟨ranges, hrun _ (by omega), ?_, ?_, ?_, ?_⟩
  · by_cases hne : ranges = []
    · rw [hne] at hlo ⊢
      simp only [List.length_nil, Nat.zero_mul, Nat.le_zero] at hlo
      have hbz : batchSizeOf jpgFiles = 0 := by omega
      rw [hbz]
      simp
    · obtain ⟨hbs, hup2⟩ := hup hne
      symm
      apply Nat.div_eq_of_lt_le
      · omega
      · rw [Nat.succ_mul]
        omega
  · by_cases hne : ranges = []
    · rw [hne]
      simp
    · obtain ⟨hbs, hup2⟩ := hup hne
      by_contra hgt
      have h6 : 6 * batchSizeOf jpgFiles ≤ ranges.length * batchSizeOf jpgFiles :=
        Nat.mul_le_mul_right _ (by omega)
      omega
  · intro hnil
    by_contra hne
    obtain ⟨hbs, _⟩ := hup hne
    rw [hnil] at hbs
    simp [batchSizeOf] at hbs
  · intro k hk
    have hne : ranges ≠ [] := fun h => by rw [h] at hk; simp at hk
    obtain ⟨hbs, hup2⟩ := hup hne
    obtain ⟨w1, w2, w3⟩ := window_facts _ _ _ k hup2 hlo hk
    rw [hform k hk, sliceOf_length _ _ _ (min_le_right _ _)]
    have hsucc : (k + 1) * batchSizeOf jpgFiles
        = k * batchSizeOf jpgFiles + batchSizeOf jpgFiles := by
      rw [Nat.add_mul, Nat.one_mul]
    refine ⟨rfl, ?_, ?_⟩
    · rw [hsucc]
      omega
    · intro hk2
      have := w2 hk2
      rw [hsucc] at this ⊢
      omega

/-! ## Worker goroutine -/

/-- Claim C12: for every batch of paths and every outcome of `computeHistogram`
on each path that is a success or a returned error, `computeHistograms` handles
the paths in input order, one after the other to the end of the batch: a success
sends its histogram on the channel, a failure prints one diagnostic line and
sends nothing. So the records sent are exactly the histograms of the
successfully decoded paths, in the batch's order, and the lines printed are
exactly one per failing path. -/
theorem computeHistograms_sends_successes (decode : String → Except String Image)
    (imagePaths : List String) (depth : Int)
    (hout : ∀ p ∈ imagePaths, computeHistogram decode p depth ≠ .error .crash) :
    computeHistograms decode imagePaths depth
        = (imagePaths.map (fun p =>
            match computeHistogram decode p depth with
            | .ok histogram => [Event.opened p, Event.send histogram]
            | .error (.error err) => [Event.opened p, Event.print (.histogramError p err)]
            | .error .crash => [Event.opened p, Event.crash])).flatten
      ∧ sendsOf (computeHistograms decode imagePaths depth)
        = imagePaths.filterMap (fun p =>
            match computeHistogram decode p depth with
            | .ok histogram => some histogram
            | .error _ => none)
      ∧ printsOf (computeHistograms decode imagePaths depth)
        = imagePaths.filterMap (fun p =>
            match computeHistogram decode p depth with
            | .ok _ => none
            | .error (.error err) => some (Line.histogramError p err)
            | .error .crash => none)
      ∧ crashes (computeHistograms decode imagePaths depth) = false := by
  induction imagePaths with
  | nil => exact ⟨rfl, rfl, rfl, rfl⟩
  | cons p ps ih =>
    obtain ⟨ih1, ih2, ih3, ih4⟩ := ih (fun q hq => hout q (List.mem_cons_of_mem _ hq))
    have hp := hout p (List.mem_cons_self _ _)
    unfold sendsOf at ih2 ⊢
    unfold printsOf at ih3 ⊢
    unfold crashes at ih4 ⊢
    cases hc : computeHistogram decode p depth with
    | ok histogram =>
      simp only [computeHistograms, hc, List.map_cons, List.flatten_cons, List.filterMap_cons,
        List.any_cons, List.cons_append, List.nil_append, Bool.false_or]
      exact ⟨by rw [ih1], by rw [ih2], ih3, ih4⟩
    | error f =>
      cases f with
      | crash => exact absurd hc hp
      | error err =>
        simp only [computeHistograms, hc, List.map_cons, List.flatten_cons,
          List.filterMap_cons, List.any_cons, List.cons_append, List.nil_append,
          Bool.false_or]
        exact ⟨by rw [ih1], ih2, by rw [ih3], ih4⟩

theorem badWorld_histogram_a :
    computeHistogram badWorld.decode "data/a.jpg" 255 = .ok (blackRecord "data/a.jpg" 5) :=
  computeHistogram_black badWorld.decode "data/a.jpg" 5 1 rfl (by decide)

theorem badWorld_histogram_bad :
    computeHistogram badWorld.decode "data/bad.jpg" 255
      = .error (.error "image: unknown format") := rfl

theorem badWorld_histogram_q :
    computeHistogram badWorld.decode "q.jpg" 255 = .ok (blackRecord "q.jpg" 6) :=
  computeHistogram_black badWorld.decode "q.jpg" 3 2 rfl (by decide)

/-- Claim C12, witness: on the batch `data/bad.jpg`, `data/a.jpg`, the first of
which is not an image, the worker prints one diagnostic for `data/bad.jpg`, goes
on, and sends the histogram of `data/a.jpg`. -/
theorem computeHistograms_sends_successes_witness :
    computeHistograms badWorld.decode ["data/bad.jpg", "data/a.jpg"] 255
        = [.opened "data/bad.jpg",
           .print (.histogramError "data/bad.jpg" "image: unknown format"),
           .opened "data/a.jpg", .send (blackRecord "data/a.jpg" 5)]
      ∧ sendsOf (computeHistograms badWorld.decode ["data/bad.jpg", "data/a.jpg"] 255)
        = [blackRecord "data/a.jpg" 5]
      ∧ printsOf (computeHistograms badWorld.decode ["data/bad.jpg", "data/a.jpg"] 255)
        = [.histogramError "data/bad.jpg" "image: unknown format"] := by
  have hout : ∀ p ∈ ["data/bad.jpg", "data/a.jpg"],
      computeHistogram badWorld.decode p 255 ≠ .error .crash := by
    intro p hp
    simp only [List.mem_cons, List.mem_singleton, List.mem_nil_iff, or_false] at hp
    rcases hp with rfl | rfl
    · rw [badWorld_histogram_bad]
      simp
    · rw [badWorld_histogram_a]
      simp
  obtain ⟨h1, h2, h3, _⟩ := computeHistograms_sends_successes badWorld.decode
    ["data/bad.jpg", "data/a.jpg"] 255 hout
  refine ⟨?_, ?_, ?_⟩
  · rw [h1]
    simp only [List.map_cons, List.map_nil, badWorld_histogram_bad, badWorld_histogram_a]
    rfl
  · rw [h2]
    simp only [List.filterMap_cons, List.filterMap_nil, badWorld_histogram_bad,
      badWorld_histogram_a]
  · rw [h3]
    simp only [List.filterMap_cons, List.filterMap_nil, badWorld_histogram_bad,
      badWorld_histogram_a]

/-! ## The program `main` -/

/-- Claim C15, counterexample: with one positional argument `main` prints the
usage line and returns, so the process ends with exit status 0, not with a
non-zero status. -/
theorem main_usage_exits_zero :
    ["similaritySearch", "q.jpg"].length ≠ 3
      ∧ (main blackWorld ["similaritySearch", "q.jpg"] []).mainOutput = [.usage]
      ∧ (main blackWorld ["similaritySearch", "q.jpg"] []).termination = .exited 0
      ∧ ¬ (∃ status, status ≠ 0
          ∧ (main blackWorld ["similaritySearch", "q.jpg"] []).termination
            = .exited status) := by
  refine ⟨by decide, rfl, rfl, ?_⟩
  rintro ⟨status, hne, he⟩
  have h0 : (main blackWorld ["similaritySearch", "q.jpg"] []).termination = .exited 0 := rfl
  rw [h0] at he
  cases he
  exact hne rfl

/-- Claim C15, amended: for every argument vector that does not consist of
exactly two positional arguments (`len(os.Args) != 3`), `main` prints the usage
line, reads no directory, launches no goroutine and so opens no file, and
returns: the process ends with exit status 0. -/
theorem main_usage (world : World) (args : List String) (choices : List Nat)
    (hargs : args.length ≠ 3) :
    main world args choices = ⟨[], [], [.usage], .exited 0⟩
      ∧ (main world args choices).mainOutput = [.usage]
      ∧ (main world args choices).dirsRead = []
      ∧ ((main world args choices).tasks.map opensOf).flatten = []
      ∧ (main world args choices).termination = .exited 0 := by
  have h : main world args choices = ⟨[], [], [.usage], .exited 0⟩ := by
    unfold main
    rw [if_pos hargs]
  rw [h]
  exact ⟨rfl, rfl, rfl, rfl, rfl⟩

/-- Claim C15, witness: no positional argument, and three positional
arguments. -/
theorem main_usage_witness :
    main blackWorld ["similaritySearch"] [] = ⟨[], [], [.usage], .exited 0⟩
      ∧ main blackWorld ["similaritySearch", "q.jpg", "data", "extra"] []
        = ⟨[], [], [.usage], .exited 0⟩ :=
  ⟨(main_usage blackWorld ["similaritySearch"] [] (by decide)).1,
   (main_usage blackWorld ["similaritySearch", "q.jpg", "data", "extra"] [] (by decide)).1⟩

/-! ## The Collector inside `main` -/

theorem deliver_length_le (fuel : Nat) :
    ∀ (senders : List (List Histo)) (choices : List Nat),
      (deliver fuel senders choices).length ≤ fuel := by
  induction fuel with
  | zero => intro senders choices; simp [deliver]
  | succ fuel ih =>
    intro senders choices
    unfold deliver
    simp only []
    split
    · simp
    · simp only [List.length_cons, Nat.add_le_add_iff_right]
      exact ih _ _

theorem collector_none_of_short (arrivals : List Histo) (n : Nat)
    (h : arrivals.length < n + 1) : collector arrivals n = none := by
  unfold collector
  cases arrivals with
  | nil => rfl
  | cons q rest =>
    simp only [List.length_cons, Nat.add_lt_add_iff_right] at h
    simp only [h, if_true]

/-- The run of `main` on three arguments, a readable directory and an ended
partitioning loop. -/
theorem main_run (world : World) (args : List String) (choices : List Nat)
    (files : List String) (ranges : List (Nat × Nat)) (hargs : args.length = 3)
    (hread : world.readDir (args.getD 2 "") = .ok files)
    (hpart : partitionLoop (listJpgFiles world (args.getD 2 "") files).length
      (batchSizeOf (listJpgFiles world (args.getD 2 "") files))
      ((listJpgFiles world (args.getD 2 "") files).length + 1) 0 = some ranges) :
    main world args choices
      = collectAndPrint (args.getD 2 "")
          (launchTasks world.decode (listJpgFiles world (args.getD 2 "") files) ranges
            (args.getD 1 "") 255)
          (listJpgFiles world (args.getD 2 "") files).length choices := by
  unfold main
  rw [if_neg (by omega)]
  simp only [hread, hpart]

/-- When no goroutine crashes and fewer than `n + 1` records are ever sent, the
Collector waits forever, whatever the scheduler does. -/
theorem collectAndPrint_blocked (dir : String) (tasks : List (List Event)) (n : Nat)
    (choices : List Nat) (hcrash : tasks.any crashes = false)
    (hshort : ((tasks.map sendsOf).map List.length).sum < n + 1) :
    collectAndPrint dir tasks n choices = ⟨[dir], tasks, [], .blocked⟩ := by
  unfold collectAndPrint
  rw [hcrash]
  simp only [Bool.false_eq_true, if_false]
  rw [collector_none_of_short _ _ (lt_of_le_of_lt (deliver_length_le _ _ _) hshort)]

/-- When no goroutine crashes and the Collector gets its `n + 1` records, `main`
prints the ranking and returns. -/
theorem collectAndPrint_done (dir : String) (tasks : List (List Event)) (n : Nat)
    (choices : List Nat) (similarImages : List Histo) (hcrash : tasks.any crashes = false)
    (hcol : collector (deliver ((tasks.map sendsOf).map List.length).sum
      (tasks.map sendsOf) choices) n = some similarImages) :
    collectAndPrint dir tasks n choices
      = ⟨[dir], tasks, .header :: rankLines similarImages, .exited 0⟩ := by
  unfold collectAndPrint
  rw [hcrash]
  simp only [Bool.false_eq_true, if_false, hcol]

theorem badWorld_jpgFiles :
    listJpgFiles badWorld "data" ["a.jpg", "bad.jpg"] = ["data/a.jpg", "data/bad.jpg"] := by
  decide

theorem badWorld_tasks :
    launchTasks badWorld.decode ["data/a.jpg", "data/bad.jpg"] [(0, 1), (1, 2)] "q.jpg" 255
      = [[.opened "data/a.jpg", .send (blackRecord "data/a.jpg" 5)],
          [.opened "data/bad.jpg",
           .print (.histogramError "data/bad.jpg" "image: unknown format")],
          [.opened "q.jpg", .print (.queryHistogram (blackBins 6)),
           .send (blackRecord "q.jpg" 6)]] := by
  have hs1 : sliceOf ["data/a.jpg", "data/bad.jpg"] (0, 1) = ["data/a.jpg"] := by decide
  have hs2 : sliceOf ["data/a.jpg", "data/bad.jpg"] (1, 2) = ["data/bad.jpg"] := by decide
  unfold launchTasks
  simp only [List.map_cons, List.map_nil, hs1, hs2, computeHistograms, queryTask,
    badWorld_histogram_a, badWorld_histogram_bad, badWorld_histogram_q]
  rfl

/-- Claim C13, failing input: the directory `data` holds the image `a.jpg` and
the undecodable file `bad.jpg`. Two records are ever sent (`data/a.jpg` and the
query), the worker of `data/bad.jpg` only prints its diagnostic, and the
Collector, which performs `len(jpgFiles) + 1 = 3` receives, waits forever under
every schedule: `main` never prints the ranking. -/
theorem main_blocks_on_undecodable_file (choices : List Nat) :
    main badWorld ["similaritySearch", "q.jpg", "data"] choices
      = ⟨["data"],
         [[.opened "data/a.jpg", .send (blackRecord "data/a.jpg" 5)],
          [.opened "data/bad.jpg",
           .print (.histogramError "data/bad.jpg" "image: unknown format")],
          [.opened "q.jpg", .print (.queryHistogram (blackBins 6)),
           .send (blackRecord "q.jpg" 6)]],
         [], .blocked⟩ := by
  have hdir : ["similaritySearch", "q.jpg", "data"].getD 2 "" = "data" := rfl
  have hq : ["similaritySearch", "q.jpg", "data"].getD 1 "" = "q.jpg" := rfl
  have hrun := main_run badWorld ["similaritySearch", "q.jpg", "data"] choices
    ["a.jpg", "bad.jpg"] [(0, 1), (1, 2)] (by decide) rfl
    (by rw [hdir, badWorld_jpgFiles]; decide)
  rw [hrun, hdir, hq, badWorld_jpgFiles, badWorld_tasks]
  apply collectAndPrint_blocked
  · simp only [crashes, List.any_cons, List.any_nil, Bool.or_false, Bool.false_or]
  · simp only [sendsOf, List.map_cons, List.map_nil, List.filterMap_cons, List.filterMap_nil,
      List.length_cons, List.length_nil, List.sum_cons, List.sum_nil]
    decide

theorem blackWorld_jpgFiles :
    listJpgFiles blackWorld "data"
        ["a.jpg", "b.jpg", "c.jpg", "d.jpg", "e.jpg", "f.jpg", "notes.txt"]
      = ["data/a.jpg", "data/b.jpg", "data/c.jpg", "data/d.jpg", "data/e.jpg",
          "data/f.jpg"] := by
  decide

theorem blackWorld_tasks :
    launchTasks blackWorld.decode
        ["data/a.jpg", "data/b.jpg", "data/c.jpg", "data/d.jpg", "data/e.jpg", "data/f.jpg"]
        [(0, 2), (2, 4), (4, 6)] "q.jpg" 255
      = blackTasks := by
  have hs1 : sliceOf ["data/a.jpg", "data/b.jpg", "data/c.jpg", "data/d.jpg", "data/e.jpg",
      "data/f.jpg"] (0, 2) = ["data/a.jpg", "data/b.jpg"] := by decide
  have hs2 : sliceOf ["data/a.jpg", "data/b.jpg", "data/c.jpg", "data/d.jpg", "data/e.jpg",
      "data/f.jpg"] (2, 4) = ["data/c.jpg", "data/d.jpg"] := by decide
  have hs3 : sliceOf ["data/a.jpg", "data/b.jpg", "data/c.jpg", "data/d.jpg", "data/e.jpg",
      "data/f.jpg"] (4, 6) = ["data/e.jpg", "data/f.jpg"] := by decide
  have ha := computeHistogram_black blackWorld.decode "data/a.jpg" 5 1 rfl (by decide)
  have hb := computeHistogram_black blackWorld.decode "data/b.jpg" 1 1 rfl (by decide)
  have hc := computeHistogram_black blackWorld.decode "data/c.jpg" 2 1 rfl (by decide)
  have hd := computeHistogram_black blackWorld.decode "data/d.jpg" 3 1 rfl (by decide)
  have he := computeHistogram_black blackWorld.decode "data/e.jpg" 2 2 rfl (by decide)
  have hf := computeHistogram_black blackWorld.decode "data/f.jpg" 3 2 rfl (by decide)
  have hq := computeHistogram_black blackWorld.decode "q.jpg" 3 2 rfl (by decide)
  unfold launchTasks
  simp only [List.map_cons, List.map_nil, hs1, hs2, hs3, computeHistograms, queryTask,
    ha, hb, hc, hd, he, hf, hq]
  rfl

theorem black_distance_to_a (k : Nat) :
    calculateIntersectionDistance (blackBins 5) (blackBins k)
      = Min.min 15 (3 * (k : Int)) := by
  rw [black_distance 5 k (by decide)]
  rfl

/-- The Collector loop when the record of `data/a.jpg` is taken as the query
and the true query record is processed as a candidate. -/
theorem query_run_with_a_as_query :
    collectorLoop (blackRecord "data/a.jpg" 5)
        [blackRecord "q.jpg" 6, blackRecord "data/b.jpg" 1, blackRecord "data/c.jpg" 2,
         blackRecord "data/d.jpg" 3, blackRecord "data/e.jpg" 4, blackRecord "data/f.jpg" 6]
      = [blackRecord "q.jpg" 6, blackRecord "data/b.jpg" 1, blackRecord "data/c.jpg" 2,
         blackRecord "data/d.jpg" 3, blackRecord "data/e.jpg" 4] := by
  simp [collectorLoop, collectorStep, findMinDistanceIdx, blackRecord, black_distance_to_a]

/-- Claim C17, failing input: the six all-black candidates and the query of
`blackWorld`, with the scheduler handing over first the record of worker 0
(`data/a.jpg`) and only then the record of the query goroutine. The Collector
takes the record named `data/a.jpg`, not the one named `q.jpg`, as
`queryHistogram`; the record of `q.jpg` is ranked as a candidate and printed as
rank 1, and `data/a.jpg` is never ranked. -/
theorem main_takes_first_record_as_query :
    deliver 7
        [[blackRecord "data/a.jpg" 5, blackRecord "data/b.jpg" 1],
         [blackRecord "data/c.jpg" 2, blackRecord "data/d.jpg" 3],
         [blackRecord "data/e.jpg" 4, blackRecord "data/f.jpg" 6],
         [blackRecord "q.jpg" 6]] [0, 3]
      = [blackRecord "data/a.jpg" 5, blackRecord "q.jpg" 6, blackRecord "data/b.jpg" 1,
         blackRecord "data/c.jpg" 2, blackRecord "data/d.jpg" 3, blackRecord "data/e.jpg" 4,
         blackRecord "data/f.jpg" 6]
    ∧ collector
        [blackRecord "data/a.jpg" 5, blackRecord "q.jpg" 6, blackRecord "data/b.jpg" 1,
         blackRecord "data/c.jpg" 2, blackRecord "data/d.jpg" 3, blackRecord "data/e.jpg" 4,
         blackRecord "data/f.jpg" 6] 6
      = some (collectorLoop (blackRecord "data/a.jpg" 5)
          [blackRecord "q.jpg" 6, blackRecord "data/b.jpg" 1, blackRecord "data/c.jpg" 2,
           blackRecord "data/d.jpg" 3, blackRecord "data/e.jpg" 4, blackRecord "data/f.jpg" 6])
    ∧ (main blackWorld ["similaritySearch", "q.jpg", "data"] [0, 3]).mainOutput
      = [.header, .rank 1 "q.jpg", .rank 2 "data/b.jpg", .rank 3 "data/c.jpg",
         .rank 4 "data/d.jpg", .rank 5 "data/e.jpg"]
    ∧ (main blackWorld ["similaritySearch", "q.jpg", "data"] [0, 3]).termination
      = .exited 0 := by
  have hdel : deliver 7
        [[blackRecord "data/a.jpg" 5, blackRecord "data/b.jpg" 1],
         [blackRecord "data/c.jpg" 2, blackRecord "data/d.jpg" 3],
         [blackRecord "data/e.jpg" 4, blackRecord "data/f.jpg" 6],
         [blackRecord "q.jpg" 6]] [0, 3]
      = [blackRecord "data/a.jpg" 5, blackRecord "q.jpg" 6, blackRecord "data/b.jpg" 1,
         blackRecord "data/c.jpg" 2, blackRecord "data/d.jpg" 3, blackRecord "data/e.jpg" 4,
         blackRecord "data/f.jpg" 6] := rfl
  have hcol : collector
        [blackRecord "data/a.jpg" 5, blackRecord "q.jpg" 6, blackRecord "data/b.jpg" 1,
         blackRecord "data/c.jpg" 2, blackRecord "data/d.jpg" 3, blackRecord "data/e.jpg" 4,
         blackRecord "data/f.jpg" 6] 6
      = some (collectorLoop (blackRecord "data/a.jpg" 5)
          [blackRecord "q.jpg" 6, blackRecord "data/b.jpg" 1, blackRecord "data/c.jpg" 2,
           blackRecord "data/d.jpg" 3, blackRecord "data/e.jpg" 4,
           blackRecord "data/f.jpg" 6]) := rfl
  have hdir : ["similaritySearch", "q.jpg", "data"].getD 2 "" = "data" := rfl
  have hq : ["similaritySearch", "q.jpg", "data"].getD 1 "" = "q.jpg" := rfl
  have hrun := main_run blackWorld ["similaritySearch", "q.jpg", "data"] [0, 3]
    ["a.jpg", "b.jpg", "c.jpg", "d.jpg", "e.jpg", "f.jpg", "notes.txt"]
    [(0, 2), (2, 4), (4, 6)] (by decide) rfl
    (by rw [hdir, blackWorld_jpgFiles]; decide)
  rw [hdir, hq, blackWorld_jpgFiles, blackWorld_tasks] at hrun
  have hsend : blackTasks.map sendsOf
      = [[blackRecord "data/a.jpg" 5, blackRecord "data/b.jpg" 1],
         [blackRecord "data/c.jpg" 2, blackRecord "data/d.jpg" 3],
         [blackRecord "data/e.jpg" 4, blackRecord "data/f.jpg" 6],
         [blackRecord "q.jpg" 6]] := rfl
  have hdone := collectAndPrint_done "data" blackTasks 6 [0, 3]
    [blackRecord "q.jpg" 6, blackRecord "data/b.jpg" 1, blackRecord "data/c.jpg" 2,
     blackRecord "data/d.jpg" 3, blackRecord "data/e.jpg" 4] rfl
    (by
      rw [hsend]
      show collector (deliver 7 _ [0, 3]) 6 = _
      rw [hdel, hcol, query_run_with_a_as_query])
  have hmain : main blackWorld ["similaritySearch", "q.jpg", "data"] [0, 3]
      = ⟨["data"], blackTasks,
          .header :: rankLines [blackRecord "q.jpg" 6, blackRecord "data/b.jpg" 1,
            blackRecord "data/c.jpg" 2, blackRecord "data/d.jpg" 3,
            blackRecord "data/e.jpg" 4], .exited 0⟩ := hrun.trans hdone
  refine ⟨hdel, hcol, ?_, ?_⟩
  · rw [hmain]
    rfl
  · rw [hmain]

end SimilaritySearch
